import Mathlib

/-!
# LMS cover art grabber, audio formats, play queue, clusterer and high level clusters

A shallow embedding of

* `src/src/libs/cover/impl/CoverArtGrabber.hpp`: the cache key `CacheEntryDesc`, its
  `operator==`, its `std::hash` specialisation and the static tables of `Grabber`;
* `src/cover/CoverArtGrabber.cpp`: `Grabber::getFromTrack` and `Grabber::getFromRelease`;
* `src/src/libs/av/include/av/Types.hpp`: the enumeration `Av::Format`;
* `src/src/ui/audio/desktop/PlayQueue.cpp`: the class `TrackSelector`;
* `src/src/classifier/Clusterer.hpp`: the class template `Clusterer`;
* `src/src/database/updater/DatabaseHighLevelCluster.cpp`: `getCluster` and the loop of
  `HighLevelCluster::handleFilesUpdated`.

Machine integers are natural numbers or integers; `std::size_t` arithmetic is reduced
modulo `2 ^ 64` where the source can wrap.
-/

set_option linter.dupNamespace false

namespace CoverArt

/-! ## Cache keys (`CoverArtGrabber.hpp`) -/

/-- The enumeration `CacheEntryDesc::Type`. -/
inductive EntryType where
  | Track
  | Release
  deriving DecidableEq, Repr

/-- The conversion `static_cast<int>(e.type)`: enumerators number from zero. -/
def EntryType.toInt : EntryType → Int
  | .Track => 0
  | .Release => 1

/-- The struct `CacheEntryDesc`: `id` is a `Database::IdType` (a signed integer),
`size` a `std::size_t`. -/
structure CacheEntryDesc where
  type : EntryType
  id : Int
  size : Nat
  deriving DecidableEq, Repr

/-- The member `CacheEntryDesc::operator==`. -/
def CacheEntryDesc.eq (self other : CacheEntryDesc) : Bool :=
  decide (self.type = other.type)
    && decide (self.id = other.id)
    && decide (self.size = other.size)

/-- The modulus of `std::size_t` arithmetic. -/
def SIZE_MOD : Nat := 2 ^ 64

/-- The three library hashers used by `std::hash<CacheEntryDesc>`; the standard library
leaves their values unspecified, so they are parameters. -/
structure StdHash where
  /-- The library hasher `std::hash<int>`. -/
  hashInt : Int → Nat
  /-- The library hasher `std::hash<Database::IdType>`. -/
  hashIdType : Int → Nat
  /-- The library hasher `std::hash<std::size_t>`. -/
  hashSize : Nat → Nat

/-- The call operator of `std::hash<CoverArt::CacheEntryDesc>`; every intermediate value
is a `size_t`, so the left shifts drop the top bit. -/
def CacheEntryDesc.hash (H : StdHash) (e : CacheEntryDesc) : Nat :=
  let h := H.hashInt e.type.toInt % SIZE_MOD
  let h := h ^^^ ((H.hashIdType e.id % SIZE_MOD) <<< 1) % SIZE_MOD
  let h := h ^^^ ((H.hashSize e.size % SIZE_MOD) <<< 1) % SIZE_MOD
  h

/-- The static member `Grabber::_fileExtensions`. -/
def _fileExtensions : List String := [".jpg", ".jpeg", ".png", ".bmp"]

/-- The static member `Grabber::_preferredFileNames`. -/
def _preferredFileNames : List String := ["cover", "front"]

/-! ## Retrieval from media files (`cover/CoverArtGrabber.cpp`) -/

/-- An exception derived from `std::exception`, the kind the media library throws and
the handler of `getFromTrack` catches; `what` is its message. -/
structure StdException where
  what : String
  deriving DecidableEq, Repr

/-- A value built by `CoverArt(mimeType, data)`: a MIME type and the raw bytes. -/
structure CoverArt where
  mimeType : String
  data : List Nat
  deriving DecidableEq, Repr

/-- A database track, reduced to what the grabber reads: `getPath()`. -/
structure Track where
  getPath : String
  deriving DecidableEq, Repr

/-- A database release, reduced to what the grabber reads: `getTracks()`, the ordered
collection of its tracks. -/
structure Release where
  getTracks : List Track
  deriving DecidableEq, Repr

/-- The media library behind `Av::InputFormatContext`, which is not part of the grabber:
the constructor opens a path and either yields a context handle or throws, and
`getPictures` either fills the vector of embedded pictures or throws. -/
structure AvLibrary where
  /-- The constructor `Av::InputFormatContext(path)`. -/
  InputFormatContext : String → Except StdException Nat
  /-- The member `InputFormatContext::getPictures`. -/
  getPictures : Nat → Except StdException (List (List Nat))

/-- The loop `BOOST_FOREACH(picture, pictures) res.push_back(CoverArt(..., picture))`. -/
def pushPictures (res : List CoverArt) (pictures : List (List Nat)) : List CoverArt :=
  pictures.foldl (fun acc picture => acc ++ [CoverArt.mk "application/octet-stream" picture]) res

/-- The function `Grabber::getFromTrack(Track::pointer)`. The standard error stream is
threaded through as `cerr`; the result is either the returned vector together with the
new contents of the stream, or an exception that escapes to the caller. -/
def Grabber.getFromTrack (av : AvLibrary) (cerr : List String) (track : Track) :
    Except StdException (List CoverArt × List String) :=
  let res : List CoverArt := []
  tryCatch
    (do
      let input ← av.InputFormatContext track.getPath
      let pictures ← av.getPictures input
      pure (pushPictures res pictures, cerr))
    (fun e => pure (res, cerr ++ ["Cannot get pictures: " ++ e.what]))

/-- The function `Grabber::getFromRelease(Release::pointer)`. The local `firstTrack` is a
pointer that stays null unless the collection has a first element; the elements of a
database collection are loaded objects, never null pointers. -/
def Grabber.getFromRelease (av : AvLibrary) (cerr : List String) (release : Release) :
    Except StdException (List CoverArt × List String) :=
  let tracks := release.getTracks
  let firstTrack : Option Track :=
    match tracks with
    | [] => none
    | t :: _ => some t
  match firstTrack with
  | some t => Grabber.getFromTrack av cerr t
  | none => pure ([], cerr)

/-- A media library in which no file can be opened. -/
def failingAv : AvLibrary :=
  AvLibrary.mk (fun _ => .error (StdException.mk "cannot open")) (fun _ => .ok [])

/-- A media library in which every file opens and holds two embedded pictures. -/
def twoPicturesAv : AvLibrary :=
  AvLibrary.mk (fun _ => .ok 0) (fun _ => .ok [[1], [2]])

/-- A track used to evaluate the grabber. -/
def sampleTrack : Track := Track.mk "/music/album/01.mp3"

/-! ## Directory scanning (design section 4.3)

`Grabber::getCoverPaths` and `Grabber::getFromDirectory` are declared in
`CoverArtGrabber.hpp` but their bodies are not available; the scanner below follows the
design text and reads the two static tables of the header. -/

/-- Lower-casing of a name, character by character. -/
def toLowerStr (s : String) : String :=
  String.mk (s.toList.map Char.toLower)

/-- The extension of a file name: the text from its last dot on, dot included; empty when
the name has no dot. -/
def extensionOf (name : String) : String :=
  let cs := name.toList.reverse
  if cs.contains '.' then String.mk ('.' :: (cs.takeWhile (fun c => c != '.')).reverse) else ""

/-- The stem of a file name: the text before its last dot; the whole name when it has no
dot. -/
def stemOf (name : String) : String :=
  let cs := name.toList.reverse
  if cs.contains '.' then String.mk ((cs.dropWhile (fun c => c != '.')).drop 1).reverse else name

/-- Lexical order on file names, by character code. -/
def lexLt : List Char → List Char → Bool
  | [], [] => false
  | [], _ :: _ => true
  | _ :: _, [] => false
  | a :: as, b :: bs => decide (a.toNat < b.toNat) || (decide (a.toNat = b.toNat) && lexLt as bs)

/-- Modelled from the spec: the transient `CoverCandidate`, a file name with its rank
(lower is more preferred). -/
structure CoverCandidate where
  filename : String
  rank : Nat
  deriving DecidableEq, Repr

/-- Modelled from the spec: the extension test of `scan`, whose body is missing; the
extension is compared case-insensitively with the allow-list `_fileExtensions`. -/
def hasAllowedExtension (name : String) : Bool :=
  (_fileExtensions.map toLowerStr).contains (toLowerStr (extensionOf name))

/-- Modelled from the spec: the rank of `scan`, whose body is missing; the stem is
compared case-insensitively with `_preferredFileNames`, an exact match ranks by its
position in that list and anything else ranks lowest (the length of the list). -/
def rankOf (name : String) : Nat :=
  (_preferredFileNames.map toLowerStr).indexOf (toLowerStr (stemOf name))

/-- Modelled from the spec: the order in which `bestCandidate` prefers candidates, whose
body is missing; lower rank first, ties broken by lexical file name order. -/
def CoverCandidate.preferredTo (a b : CoverCandidate) : Bool :=
  decide (a.rank < b.rank)
    || (decide (a.rank = b.rank) && lexLt a.filename.toList b.filename.toList)

/-- Insertion of a candidate into a list ordered by `preferredTo`. -/
def insertCandidate (c : CoverCandidate) : List CoverCandidate → List CoverCandidate
  | [] => [c]
  | d :: ds => if c.preferredTo d then c :: d :: ds else d :: insertCandidate c ds

/-- The candidates made of a list of file names, each with its rank, ordered by
`preferredTo`. -/
def orderedCandidates (names : List String) : List CoverCandidate :=
  names.foldr (fun f acc => insertCandidate (CoverCandidate.mk f (rankOf f)) acc) []

/-- Modelled from the spec: the operation `scan` of the directory scanner, whose body
(`Grabber::getCoverPaths`) is missing. The argument is the listing of the immediate
files of the directory, `none` when it cannot be listed; the result is ordered, most
preferred first. -/
def scan (listing : Option (List String)) : List CoverCandidate :=
  match listing with
  | none => []
  | some files => orderedCandidates (files.filter hasAllowedExtension)

/-- Modelled from the spec: the operation `bestCandidate` of the directory scanner, whose
body is missing; the most preferred file, `none` when there is no matching file or the
directory cannot be listed. -/
def bestCandidate (listing : Option (List String)) : Option String :=
  (scan listing).head?.map (fun c => c.filename)

/-- Modelled from the spec: the immutable `EncodedImage`, a byte payload and a MIME
type. -/
structure EncodedImage where
  data : List Nat
  mimeType : String
  deriving DecidableEq, Repr

/-- The method `IEncodedImage::getDataSize`: the payload size in bytes. -/
def EncodedImage.getDataSize (img : EncodedImage) : Nat := img.data.length

/-- A directory as the grabber sees it: the listing of its immediate files (`none` when
it cannot be listed) and the bytes of each file. -/
structure Directory where
  listing : Option (List String)
  content : String → List Nat

/-- Modelled from the spec: step (4) of the retrieval pipeline, whose body
(`Grabber::getFromDirectory`) is missing; the best candidate of the directory is decoded,
scaled and encoded by the image codec when it is no larger than the configured maximum
source-file size. The codec is the external collaborator; it yields `none` on a decode
failure. -/
def Grabber.getFromDirectory (codec : List Nat → Nat → Option EncodedImage)
    (_maxFileSize : Nat) (dir : Directory) (width : Nat) : Option EncodedImage :=
  match bestCandidate dir.listing with
  | none => none
  | some f =>
    if (dir.content f).length ≤ _maxFileSize then codec (dir.content f) width else none

/-- A directory holding `front.png`, `cover.png`, `cover.jpg` and two other files. -/
def sampleDirectory : Directory :=
  Directory.mk (some ["front.png", "notes.txt", "cover.png", "cover.jpg", "folder.jpeg"])
    (fun f => if f = "cover.jpg" then [255, 216, 255] else [137, 80, 78, 71])

/-- A directory holding `cover.jpg`, `front.png` and `cover.bmp`. -/
def crowdedDirectory : Directory :=
  Directory.mk (some ["cover.jpg", "front.png", "cover.bmp"])
    (fun f => if f = "cover.jpg" then [255, 216, 255]
      else if f = "cover.bmp" then [66, 77] else [137, 80, 78, 71])

/-- A codec that passes the payload through unchanged. -/
def sampleCodec (raw : List Nat) (_width : Nat) : Option EncodedImage :=
  some (EncodedImage.mk raw "image/jpeg")

/-! ## The bounded cache (design section 4.2)

`Grabber::saveToCache` is declared in `CoverArtGrabber.hpp` but its body is not
available; the store below follows the design text, with the insertion-order eviction
policy that the design notes recommend. -/

/-- Modelled from the spec: the state of the `CacheStore` (the members `_cache`,
`_cacheSize`, `_cacheHits` and `_cacheMisses` of `Grabber`); the entries are kept in
insertion order, oldest first. -/
structure CacheStore where
  entries : List (CacheEntryDesc × EncodedImage)
  byteTotal : Nat
  hits : Nat
  misses : Nat
  deriving DecidableEq, Repr

/-- The store of a freshly constructed grabber. -/
def CacheStore.empty : CacheStore := CacheStore.mk [] 0 0 0

/-- The sum of the payload sizes of a list of entries. -/
def payloadSum (entries : List (CacheEntryDesc × EncodedImage)) : Nat :=
  (entries.map (fun e => e.2.getDataSize)).sum

/-- Modelled from the spec: the eviction loop of `insert`, whose body
(`Grabber::saveToCache`) is missing; while the new total would exceed the configured
maximum and an entry is left, the oldest entry is removed and its payload size is
subtracted from the tracked total. -/
def CacheStore.evict (_maxCacheSize newSize : Nat) :
    List (CacheEntryDesc × EncodedImage) → Nat → List (CacheEntryDesc × EncodedImage) × Nat
  | [], total => ([], total)
  | e :: rest, total =>
    if total + newSize > _maxCacheSize then
      CacheStore.evict _maxCacheSize newSize rest (total - e.2.getDataSize)
    else (e :: rest, total)

/-- Modelled from the spec: the operation `insert` of the cache store, whose body
(`Grabber::saveToCache`) is missing; a key already present leaves the store unchanged,
otherwise entries are evicted until the new one fits, the entry is added and the tracked
total grows by its payload size. The store never exceeds the configured maximum, so an
entry that does not fit even once eviction has emptied the store is not added. -/
def CacheStore.insert (_maxCacheSize : Nat) (s : CacheStore) (key : CacheEntryDesc)
    (image : EncodedImage) : CacheStore :=
  if s.entries.any (fun e => e.1.eq key) then s
  else
    let r := CacheStore.evict _maxCacheSize image.getDataSize s.entries s.byteTotal
    if r.2 + image.getDataSize ≤ _maxCacheSize then
      { s with entries := r.1 ++ [(key, image)], byteTotal := r.2 + image.getDataSize }
    else { s with entries := r.1, byteTotal := r.2 }

/-- Modelled from the spec: the operation `flush` of the cache store, whose body
(`Grabber::flushCache`) is missing. -/
def CacheStore.flush (_s : CacheStore) : CacheStore := CacheStore.empty

/-- A sequence of insertions, applied in order. -/
def CacheStore.insertAll (_maxCacheSize : Nat) (s : CacheStore)
    (ops : List (CacheEntryDesc × EncodedImage)) : CacheStore :=
  ops.foldl (fun acc op => CacheStore.insert _maxCacheSize acc op.1 op.2) s

end CoverArt

/-! ## Audio formats (`av/Types.hpp`) -/

namespace Av

/-- The enumeration `Av::Format`. -/
inductive Format where
  | MP3
  | OGG_OPUS
  | MATROSKA_OPUS
  | OGG_VORBIS
  | WEBM_VORBIS
  deriving DecidableEq, Repr

/-- The numeric value of each enumerator, as written in the declaration. -/
def Format.toInt : Format → Int
  | .MP3 => 0
  | .OGG_OPUS => 1
  | .MATROSKA_OPUS => 2
  | .OGG_VORBIS => 3
  | .WEBM_VORBIS => 4

/-- All enumerators of `Av::Format`, in declaration order. -/
def Format.all : List Format :=
  [.MP3, .OGG_OPUS, .MATROSKA_OPUS, .OGG_VORBIS, .WEBM_VORBIS]

/-- Reading a stored integer back as a `Format`: the enumerator carrying that value,
when there is one. -/
def Format.ofInt (n : Int) : Option Format :=
  Format.all.find? (fun f => decide (f.toInt = n))

end Av

/-! ## The track selector of the play queue (`ui/audio/desktop/PlayQueue.cpp`)

The members `_size` and `_curPos` are `std::size_t` values (64 bits), the table
`_trackPos` holds `int` values (32 bits); every conversion between the two that the
source performs is written out. An access beyond the end of the table has no defined
result and makes the operation yield `none`. -/

namespace UserInterface.Desktop

/-- Conversion of an integer value to `int`: 32 bits, two's complement. -/
def toInt (x : Int) : Int := (x + 2147483648) % 4294967296 - 2147483648

/-- Conversion of an integer value to `std::size_t`: 64 bits. -/
def toSizeT (x : Int) : Nat := (x % 18446744073709551616).toNat

/-- The values an `int` variable can hold. -/
abbrev isInt (x : Int) : Prop := -2147483648 ≤ x ∧ x < 2147483648

/-- The data members of the class `TrackSelector`. -/
structure TrackSelector where
  _loop : Bool
  _shuffle : Bool
  _size : Nat
  _curPos : Nat
  _trackPos : List Int
  deriving DecidableEq, Repr

/-- The constructor `TrackSelector::TrackSelector()`. -/
def TrackSelector.new : TrackSelector := TrackSelector.mk false false 0 0 []

/-- One iteration of the shuffle loop of `refreshPositions`:
`tmp = _trackPos[i]; _trackPos[i] = _trackPos[val1]; _trackPos[val1] = tmp`, the `int`
index `val1` being converted to `std::size_t`. -/
def swapAt (t : List Int) (i : Nat) (val1 : Int) : Option (List Int) :=
  match t[i]?, t[toSizeT val1]? with
  | some tmp, some other => some ((t.set i other).set (toSizeT val1) tmp)
  | _, _ => none

/-- The shuffle loop of `refreshPositions`, `for (i = 0; i < _size; ++i)`: the first
argument counts the iterations left, `i` is the loop index and `draws i` is the value
that `distribution(rng)` returns in iteration `i`. -/
def shuffleLoop (draws : Nat → Int) : Nat → Nat → List Int → Option (List Int)
  | 0, _, t => some t
  | left + 1, i, t =>
    match swapAt t i (draws i) with
    | none => none
    | some t' => shuffleLoop draws left (i + 1) t'

/-- The method `TrackSelector::refreshPositions`. The generator seeded from the clock is
represented by the sequence `draws` of the values it hands out. -/
def TrackSelector.refreshPositions (draws : Nat → Int) (s : TrackSelector) :
    Option TrackSelector :=
  let s := { s with _trackPos := [] }
  if s._size = 0 then some s
  else
    let filled := (List.range s._size).map (fun (i : Nat) => toInt (i : Int))
    (shuffleLoop draws s._size 0 filled).map (fun t => { s with _trackPos := t })

/-- The method `TrackSelector::setSize`. -/
def TrackSelector.setSize (draws : Nat → Int) (s : TrackSelector) (size : Nat) :
    Option TrackSelector :=
  TrackSelector.refreshPositions draws { s with _size := size, _curPos := 0 }

/-- The method `TrackSelector::getCurrent`: the conditional expression has type
`std::size_t` and is converted to the return type `int`. -/
def TrackSelector.getCurrent (s : TrackSelector) : Option Int :=
  if s._shuffle then
    (s._trackPos[s._curPos]?).map (fun row => toInt (toSizeT row))
  else some (toInt (s._curPos : Int))

/-- The method `TrackSelector::setPos`. -/
def TrackSelector.setPos (s : TrackSelector) (pos : Int) : TrackSelector :=
  { s with _curPos := toSizeT pos }

/-- The search loop of `setPosByRowId`: the first index, counted from `i`, whose table
entry equals `rowId`. -/
def findRow (rowId : Int) : List Int → Nat → Option Nat
  | [], _ => none
  | row :: rest, i => if rowId = row then some i else findRow rowId rest (i + 1)

/-- The method `TrackSelector::setPosByRowId`. -/
def TrackSelector.setPosByRowId (s : TrackSelector) (rowId : Int) : TrackSelector :=
  if s._shuffle then
    match findRow rowId s._trackPos 0 with
    | some i => { s with _curPos := i }
    | none => s
  else { s with _curPos := toSizeT rowId }

/-- The method `TrackSelector::setShuffle`. -/
def TrackSelector.setShuffle (s : TrackSelector) (enable : Bool) : Option TrackSelector :=
  let s := { s with _shuffle := enable }
  if s._size ≠ 0 then
    if s._shuffle then some (s.setPosByRowId (toInt (s._curPos : Int)))
    else (s._trackPos[s._curPos]?).map (fun row => s.setPos row)
  else some s

/-- The table of a selector is the one `setSize` builds: the row numbers below `_size`,
each converted to `int`, in some order. -/
def TrackSelector.WellFormed (s : TrackSelector) : Prop :=
  s._trackPos.Perm ((List.range s._size).map (fun (i : Nat) => toInt (i : Int)))

/-- Well-formedness can be checked by comparing the two lists. -/
instance TrackSelector.decidableWellFormed (s : TrackSelector) : Decidable s.WellFormed :=
  inferInstanceAs (Decidable (s._trackPos.Perm
    ((List.range s._size).map (fun (i : Nat) => toInt (i : Int)))))

/-- A selector of four rows in shuffle mode, at position 1 of the table `3, 0, 1, 2`. -/
def shuffledSelector : TrackSelector := TrackSelector.mk false true 4 1 [3, 0, 1, 2]

/-- Draws that always pick the last row. -/
def lastRowDraws (n : Nat) : Nat → Int := fun _ => (n : Int) - 1

end UserInterface.Desktop

/-! ## The clusterer (`classifier/Clusterer.hpp`)

The self-organising map (`SOM::Network`) and the data normaliser (`SOM::DataNormalizer`)
come from headers that are not available; they are parameters of the embedding. Input
vectors are values of an arbitrary type `V`. -/

namespace SOM

/-- The struct `SOM::Coords`: a cell of the map. -/
structure Coords where
  x : Nat
  y : Nat
  deriving DecidableEq, Repr

/-- The operations of `SOM::DataNormalizer` (state `D`) and `SOM::Network` (state `N`)
that the clusterer calls. -/
structure Library (V D N : Type) where
  /-- The constructor `DataNormalizer(inputDimCount)`. -/
  newDataNormalizer : Nat → D
  /-- The method `DataNormalizer::computeNormalizationFactors`. -/
  computeNormalizationFactors : D → List V → D
  /-- The method `DataNormalizer::normalizeData`, which rewrites its argument. -/
  normalizeData : D → V → V
  /-- The constructor `Network(width, height, inputDimCount)`. -/
  newNetwork : Nat → Nat → Nat → N
  /-- The method `Network::train`. -/
  train : N → List V → Nat → N
  /-- The method `Network::classify`. -/
  classify : N → V → Coords

end SOM

/-- The data members of the class template `Clusterer<T>`. -/
structure Clusterer (T D N : Type) where
  _width : Nat
  _height : Nat
  _values : List (List T)
  _dataNormalizer : D
  _network : N

/-- The access `_values[index].push_back(value)`; an index beyond the end of `_values`
has no defined result. -/
def pushAt {T : Type} : List (List T) → Nat → T → Option (List (List T))
  | [], _, _ => none
  | cell :: cells, 0, value => some ((cell ++ [value]) :: cells)
  | cell :: cells, index + 1, value => (pushAt cells index value).map (fun r => cell :: r)

/-- The method `Clusterer::getValues`: the cell `_values[coords.x + coords.y * _width]`. -/
def Clusterer.getValues {T D N : Type} (c : Clusterer T D N) (coords : SOM.Coords) :
    Option (List T) :=
  c._values[coords.x + coords.y * c._width]?

/-- The first block of `Clusterer::train`: the normalisation factors are computed from
the input vectors, the vectors are normalised and the network is trained on them. -/
def Clusterer.trainNetwork {V T D N : Type} (lib : SOM.Library V D N) (c : Clusterer T D N)
    (samples : List (V × T)) (iterationCount : Nat) : Clusterer T D N :=
  let inputVectors := samples.map (fun sample => sample.1)
  let normalizer := lib.computeNormalizationFactors c._dataNormalizer inputVectors
  let inputVectors := inputVectors.map (fun inputVector => lib.normalizeData normalizer inputVector)
  { c with _dataNormalizer := normalizer,
           _network := lib.train c._network inputVectors iterationCount }

/-- The second block of `Clusterer::train`: each sample is normalised, classified and
its value is pushed to the cell of its coordinates. -/
def Clusterer.classifyData {V T D N : Type} (lib : SOM.Library V D N) :
    Clusterer T D N → List (V × T) → Option (Clusterer T D N)
  | c, [] => some c
  | c, sample :: rest =>
    let inputVector := lib.normalizeData c._dataNormalizer sample.1
    let coords := lib.classify c._network inputVector
    match pushAt c._values (coords.x + coords.y * c._width) sample.2 with
    | none => none
    | some values => Clusterer.classifyData lib { c with _values := values } rest

/-- The method `Clusterer::train`. -/
def Clusterer.train {V T D N : Type} (lib : SOM.Library V D N) (c : Clusterer T D N)
    (samples : List (V × T)) (iterationCount : Nat) : Option (Clusterer T D N) :=
  Clusterer.classifyData lib (Clusterer.trainNetwork lib c samples iterationCount) samples

/-- The constructor `Clusterer(samples, inputDimCount, iterationCount)`. -/
def Clusterer.new {V T D N : Type} (lib : SOM.Library V D N) (samples : List (V × T))
    (inputDimCount iterationCount : Nat) : Option (Clusterer T D N) :=
  let _width := 3
  let _height := 3
  let c : Clusterer T D N :=
    { _width := _width, _height := _height,
      _values := List.replicate (_width * _height) [],
      _dataNormalizer := lib.newDataNormalizer inputDimCount,
      _network := lib.newNetwork _width _height inputDimCount }
  Clusterer.train lib c samples iterationCount

/-- The method `Clusterer::getClusterValues`. -/
def Clusterer.getClusterValues {V T D N : Type} (lib : SOM.Library V D N)
    (c : Clusterer T D N) (inputVector : V) : Option (List T) :=
  let inputVectorNormalized := lib.normalizeData c._dataNormalizer inputVector
  c.getValues (lib.classify c._network inputVectorNormalized)

/-- The number of values stored over all cells. -/
def Clusterer.valueCount {T D N : Type} (c : Clusterer T D N) : Nat :=
  (c._values.map List.length).sum

/-- The network that the constructor has trained when it classifies the samples. -/
def Clusterer.trainedNetwork {V T D N : Type} (lib : SOM.Library V D N)
    (samples : List (V × T)) (inputDimCount iterationCount : Nat) : N :=
  (Clusterer.trainNetwork lib
    ({ _width := 3, _height := 3, _values := List.replicate (3 * 3) ([] : List T),
       _dataNormalizer := lib.newDataNormalizer inputDimCount,
       _network := lib.newNetwork 3 3 inputDimCount } : Clusterer T D N)
    samples iterationCount)._network

/-- A map library on natural numbers: nothing is normalised or learnt, and a number is
classified by its remainders modulo 3. -/
def sampleSom : SOM.Library Nat Unit Unit :=
  { newDataNormalizer := fun _ => (),
    computeNormalizationFactors := fun d _ => d,
    normalizeData := fun _ v => v,
    newNetwork := fun _ _ _ => (),
    train := fun n _ _ => n,
    classify := fun _ v => SOM.Coords.mk (v % 3) ((v / 3) % 3) }

/-! ## High level clusters (`database/updater/DatabaseHighLevelCluster.cpp`)

The database classes `Cluster`, `ClusterType` and `Track` are declared in headers that
are not available. The session is represented by its cluster type table and its cluster
table; a cluster row carries the name of its type, its own name and the ids of the tracks
attached to it, and a pointer to a cluster is the position of its row. -/

namespace Database

/-- A row of the cluster table: `getType()->getName()`, `getName()` and the ids of the
attached tracks, a list that is read as a set. -/
structure Cluster where
  type : String
  name : String
  tracks : List Nat
  deriving DecidableEq, Repr

/-- The contents of the updater session: the names of the cluster types and the cluster
rows, both in table order. -/
structure Session where
  clusterTypes : List String
  clusters : List Cluster
  deriving DecidableEq, Repr

/-- The accessor `track->getClusters()`: the cluster rows the track is attached to. -/
def Track.getClusters (db : Session) (trackId : Nat) : List Cluster :=
  db.clusters.filter (fun cluster => decide (trackId ∈ cluster.tracks))

/-- The lookup `ClusterType::getByName(session, name)`. -/
def ClusterType.getByName (db : Session) (name : String) : Option String :=
  if name ∈ db.clusterTypes then some name else none

/-- The call `ClusterType::create(session, name)`. -/
def ClusterType.create (db : Session) (name : String) : Session × String :=
  ({ db with clusterTypes := db.clusterTypes ++ [name] }, name)

/-- The search behind `clusterType->getCluster(name)`: the position, counted from `i`,
of the first row of that type and name. -/
def findCluster (type name : String) : List Cluster → Nat → Option Nat
  | [], _ => none
  | cluster :: rest, i =>
    if cluster.type = type ∧ cluster.name = name then some i
    else findCluster type name rest (i + 1)

/-- The accessor `clusterType->getCluster(name)`. -/
def ClusterType.getCluster (db : Session) (clusterType name : String) : Option Nat :=
  findCluster clusterType name db.clusters 0

/-- The call `Cluster::create(session, clusterType, name)`: a new row without tracks. -/
def Cluster.create (db : Session) (clusterType name : String) : Session × Nat :=
  ({ db with clusters := db.clusters ++ [Cluster.mk clusterType name []] },
    db.clusters.length)

/-- The row update behind `addTrack`: the track is attached to the row at `index`. -/
def addTrackAt (trackId : Nat) : List Cluster → Nat → List Cluster
  | [], _ => []
  | cluster :: rest, 0 => { cluster with tracks := cluster.tracks ++ [trackId] } :: rest
  | cluster :: rest, index + 1 => cluster :: addTrackAt trackId rest index

/-- The call `cluster.modify()->addTrack(track)`. -/
def Cluster.addTrack (db : Session) (cluster : Nat) (trackId : Nat) : Session :=
  { db with clusters := addTrackAt trackId db.clusters cluster }

/-- The static function `getCluster(type, name)`: the cluster of that type and name,
both created when missing. -/
def getCluster (db : Session) (type name : String) : Session × Nat :=
  let r : Session × String :=
    match ClusterType.getByName db type with
    | some clusterType => (db, clusterType)
    | none => ClusterType.create db type
  match ClusterType.getCluster r.1 r.2 name with
  | some cluster => (r.1, cluster)
  | none => Cluster.create r.1 r.2 name

/-- The first loop of the processing step, over the clusters of the track: a cluster of
another type is skipped, a `high_level` cluster whose name is not among the new names is
removed from the database, and the name of a `high_level` cluster that stays is erased
from the new names. The loop walks the cluster table and passes over the rows the track
is not attached to. -/
def removeStale (trackId : Nat) : List Cluster → List String → List Cluster × List String
  | [], newClusterNames => ([], newClusterNames)
  | cluster :: rest, newClusterNames =>
    if trackId ∈ cluster.tracks then
      if cluster.type ≠ "high_level" then
        let r := removeStale trackId rest newClusterNames
        (cluster :: r.1, r.2)
      else if cluster.name ∈ newClusterNames then
        let r := removeStale trackId rest (newClusterNames.erase cluster.name)
        (cluster :: r.1, r.2)
      else removeStale trackId rest newClusterNames
    else
      let r := removeStale trackId rest newClusterNames
      (cluster :: r.1, r.2)

/-- The second loop of the processing step: the track is attached to the `high_level`
cluster of every name that is left. -/
def addMissing (trackId : Nat) : Session → List String → Session
  | db, [] => db
  | db, newName :: rest =>
    let r := getCluster db "high_level" newName
    addMissing trackId (Cluster.addTrack r.1 r.2 trackId) rest

/-- The body of the loop of `HighLevelCluster::handleFilesUpdated` for one track.
`features trackId` stands for the lookup in `Feature::Store` followed by
`getClustersFromFeature`: `none` when the store has no `high_level` feature for the
track, otherwise the cluster names computed from it. A track without feature is passed
over. -/
def processTrack (createTags : Bool) (features : Nat → Option (List String))
    (db : Session) (trackId : Nat) : Session :=
  let computed : Option (List String) := if createTags then features trackId else some []
  match computed with
  | none => db
  | some newClusterNames =>
    let r := removeStale trackId db.clusters newClusterNames
    addMissing trackId { db with clusters := r.1 } r.2

/-- The loop of `HighLevelCluster::handleFilesUpdated`; `quitRequested i` is the answer of
`UpdaterQuitRequested()` at the start of iteration `i`. -/
def handleFilesUpdatedLoop (createTags : Bool) (features : Nat → Option (List String))
    (quitRequested : Nat → Bool) : Nat → List Nat → Session → Session
  | _, [], db => db
  | i, trackId :: rest, db =>
    if quitRequested i then db
    else handleFilesUpdatedLoop createTags features quitRequested (i + 1) rest
      (processTrack createTags features db trackId)

/-- The names of the `high_level` clusters of a track. -/
def highLevelNames (db : Session) (trackId : Nat) : List String :=
  ((Track.getClusters db trackId).filter
    (fun cluster => decide (cluster.type = "high_level"))).map (fun cluster => cluster.name)

/-- The clusters of a track whose type is not `high_level`. -/
def otherClusters (db : Session) (trackId : Nat) : List Cluster :=
  (Track.getClusters db trackId).filter (fun cluster => decide (cluster.type ≠ "high_level"))

/-- A session with a genre cluster and two `high_level` clusters. -/
def sampleSession : Session :=
  Session.mk ["genre", "high_level"]
    [Cluster.mk "genre" "Rock" [1, 2], Cluster.mk "high_level" "Happy" [1, 2],
     Cluster.mk "high_level" "Dark" [1], Cluster.mk "high_level" "Party" [2]]

/-- A feature store that knows track 1 only. -/
def sampleFeatures : Nat → Option (List String) :=
  fun trackId => if trackId = 1 then some ["Happy", "Party", "Male"] else none

end Database

/-! ## Lemmas on the embedding -/

namespace CoverArt

/-- The push-back loop appends one cover art per picture, in order. -/
theorem pushPictures_eq_append (res : List CoverArt) (pictures : List (List Nat)) :
    pushPictures res pictures
      = res ++ pictures.map (fun p => CoverArt.mk "application/octet-stream" p) := by
  induction pictures generalizing res with
  | nil => simp [pushPictures]
  | cons p ps ih =>
    have h := ih (res ++ [CoverArt.mk "application/octet-stream" p])
    simp only [pushPictures, List.foldl_cons] at h ⊢
    rw [h]
    simp

/-- The result of `getFromTrack` when the constructor of the input context throws. -/
theorem getFromTrack_of_open_error (av : AvLibrary) (cerr : List String) (track : Track)
    (e : StdException) (h : av.InputFormatContext track.getPath = .error e) :
    Grabber.getFromTrack av cerr track
      = .ok ([], cerr ++ ["Cannot get pictures: " ++ e.what]) := by
  simp only [Grabber.getFromTrack, h]
  rfl

/-- The result of `getFromTrack` when `getPictures` throws. -/
theorem getFromTrack_of_pictures_error (av : AvLibrary) (cerr : List String)
    (track : Track) (input : Nat) (e : StdException)
    (h : av.InputFormatContext track.getPath = .ok input)
    (hp : av.getPictures input = .error e) :
    Grabber.getFromTrack av cerr track
      = .ok ([], cerr ++ ["Cannot get pictures: " ++ e.what]) := by
  simp only [Grabber.getFromTrack, h]
  show tryCatch (do let pictures ← av.getPictures input; pure (pushPictures [] pictures, cerr)) _ = _
  rw [hp]
  rfl

/-- The result of `getFromTrack` when the file opens and its pictures are extracted. -/
theorem getFromTrack_of_pictures (av : AvLibrary) (cerr : List String)
    (track : Track) (input : Nat) (pictures : List (List Nat))
    (h : av.InputFormatContext track.getPath = .ok input)
    (hp : av.getPictures input = .ok pictures) :
    Grabber.getFromTrack av cerr track
      = .ok (pictures.map (fun p => CoverArt.mk "application/octet-stream" p), cerr) := by
  simp only [Grabber.getFromTrack, h]
  show tryCatch (do let pictures ← av.getPictures input; pure (pushPictures [] pictures, cerr)) _ = _
  rw [hp]
  show Except.ok (pushPictures [] pictures, cerr) = _
  rw [pushPictures_eq_append]
  simp

end CoverArt

/-! ## Cache keys -/

namespace CoverArt

/-- C1: two cache keys compare equal with `operator==` exactly when their `type`, `id`
and `size` fields are equal; hence keys of one track at two distinct widths are unequal,
and a track key is unequal to the release key with the same id and width. -/
theorem cacheEntryDesc_eq_iff_fields :
    (∀ a b : CacheEntryDesc,
        a.eq b = true ↔ (a.type = b.type ∧ a.id = b.id ∧ a.size = b.size))
    ∧ (∀ (id : Int) (w1 w2 : Nat), w1 ≠ w2 →
        (CacheEntryDesc.mk .Track id w1).eq (CacheEntryDesc.mk .Track id w2) = false)
    ∧ (∀ (id : Int) (w : Nat),
        (CacheEntryDesc.mk .Track id w).eq (CacheEntryDesc.mk .Release id w) = false) := by
  refine ⟨?_, ?_, ?_⟩
  · intro a b
    simp [CacheEntryDesc.eq, and_assoc]
  · intro id w1 w2 h
    simp [CacheEntryDesc.eq, h]
  · intro id w
    simp [CacheEntryDesc.eq]

/-- The keys of track 7 at widths 64 and 128 are unequal. -/
theorem cacheEntryDesc_eq_iff_fields_witness :
    (64 : Nat) ≠ 128
    ∧ (CacheEntryDesc.mk .Track 7 64).eq (CacheEntryDesc.mk .Track 7 128) = false :=
  ⟨by decide, cacheEntryDesc_eq_iff_fields.2.1 7 64 128 (by decide)⟩

/-- The left shift by one of a `size_t` doubles it modulo `2 ^ 64`. -/
theorem shiftLeft_one_mod (x : Nat) :
    ((x % SIZE_MOD) <<< 1) % SIZE_MOD = (2 * x) % 18446744073709551616 := by
  have hm : SIZE_MOD = 18446744073709551616 := by decide
  rw [Nat.shiftLeft_eq, hm]
  omega

/-- The hash of a key written out: the hash of the type code, xored with the doubled
hash of the id and with the doubled hash of the size, all as `size_t` values. -/
theorem cacheEntryDesc_hash_formula (H : StdHash) (e : CacheEntryDesc) :
    e.hash H
      = (H.hashInt (if e.type = EntryType.Track then 0 else 1) % 18446744073709551616)
          ^^^ ((2 * H.hashIdType e.id) % 18446744073709551616)
          ^^^ ((2 * H.hashSize e.size) % 18446744073709551616) := by
  have hm : SIZE_MOD = 18446744073709551616 := by decide
  have ht : e.type.toInt = (if e.type = EntryType.Track then 0 else 1) := by
    cases e.type <;> rfl
  simp only [CacheEntryDesc.hash, shiftLeft_one_mod, ht]
  rw [hm]

/-- C2: the hash of a cache key is consistent with key equality and is computed only
from the three fields: when `a == b`, the hash of `a` equals the hash of `b`, and it is
`H(type) xor (H(id) << 1) xor (H(size) << 1)` evaluated on the `type`, `id` and `size` of
`b`, the shifts being `size_t` shifts (doubling modulo `2 ^ 64`); the result is a
`size_t`. -/
theorem cacheEntryDesc_hash_eq_of_eq (H : StdHash) (a b : CacheEntryDesc)
    (h : a.eq b = true) :
    a.hash H = b.hash H
    ∧ a.hash H
        = (H.hashInt (if b.type = EntryType.Track then 0 else 1) % 18446744073709551616)
            ^^^ ((2 * H.hashIdType b.id) % 18446744073709551616)
            ^^^ ((2 * H.hashSize b.size) % 18446744073709551616)
    ∧ a.hash H < 18446744073709551616 := by
  simp only [CacheEntryDesc.eq, Bool.and_eq_true, decide_eq_true_eq] at h
  obtain ⟨⟨ht, hi⟩, hs⟩ := h
  have hab : a = b := by
    cases a
    cases b
    simp only [CacheEntryDesc.mk.injEq]
    exact ⟨ht, hi, hs⟩
  subst hab
  refine ⟨rfl, cacheEntryDesc_hash_formula H a, ?_⟩
  rw [cacheEntryDesc_hash_formula H a]
  have hp : (18446744073709551616 : Nat) = 2 ^ 64 := by norm_num
  rw [hp]
  apply Nat.xor_lt_two_pow
  · apply Nat.xor_lt_two_pow
    · exact Nat.mod_lt _ (by norm_num)
    · exact Nat.mod_lt _ (by norm_num)
  · exact Nat.mod_lt _ (by norm_num)

/-- The key of track 7 at width 64 under identity-like hashers: the hash is
`0 xor 14 xor 128 = 142`. -/
theorem cacheEntryDesc_hash_eq_of_eq_witness :
    (CacheEntryDesc.mk .Track 7 64).eq (CacheEntryDesc.mk .Track 7 64) = true
    ∧ ((CacheEntryDesc.mk .Track 7 64).hash (StdHash.mk Int.toNat Int.toNat id)
        = (CacheEntryDesc.mk .Track 7 64).hash (StdHash.mk Int.toNat Int.toNat id)
      ∧ (CacheEntryDesc.mk .Track 7 64).hash (StdHash.mk Int.toNat Int.toNat id)
        = ((StdHash.mk Int.toNat Int.toNat id).hashInt
              (if (CacheEntryDesc.mk .Track 7 64).type = EntryType.Track then 0 else 1)
              % 18446744073709551616)
            ^^^ ((2 * (StdHash.mk Int.toNat Int.toNat id).hashIdType
                (CacheEntryDesc.mk .Track 7 64).id) % 18446744073709551616)
            ^^^ ((2 * (StdHash.mk Int.toNat Int.toNat id).hashSize
                (CacheEntryDesc.mk .Track 7 64).size) % 18446744073709551616)
      ∧ (CacheEntryDesc.mk .Track 7 64).hash (StdHash.mk Int.toNat Int.toNat id)
        < 18446744073709551616)
    ∧ (CacheEntryDesc.mk .Track 7 64).hash (StdHash.mk Int.toNat Int.toNat id) = 142 :=
  ⟨by decide, cacheEntryDesc_hash_eq_of_eq _ _ _ (by decide), by decide⟩

/-! ## Retrieval from media files -/

/-- C3: for a release whose track collection is not empty, `getFromRelease` returns
exactly what `getFromTrack` returns on the first track of the collection. -/
theorem getFromRelease_eq_getFromTrack_first (av : AvLibrary) (cerr : List String)
    (release : Release) (first : Track) (h : release.getTracks.head? = some first) :
    Grabber.getFromRelease av cerr release = Grabber.getFromTrack av cerr first := by
  unfold Grabber.getFromRelease
  cases hts : release.getTracks with
  | nil => simp [hts] at h
  | cons t rest =>
    simp only [hts, List.head?_cons, Option.some.injEq] at h
    simp [h]

/-- A release of two tracks delegates to its first track. -/
theorem getFromRelease_eq_getFromTrack_first_witness :
    (Release.mk [sampleTrack, Track.mk "/music/album/02.mp3"]).getTracks.head?
        = some sampleTrack
    ∧ Grabber.getFromRelease twoPicturesAv []
          (Release.mk [sampleTrack, Track.mk "/music/album/02.mp3"])
        = Grabber.getFromTrack twoPicturesAv [] sampleTrack :=
  ⟨rfl, getFromRelease_eq_getFromTrack_first _ _ _ _ rfl⟩

/-- C4: `getFromTrack` never fails its caller: whatever the media library does on the
track's file, including throwing when the file is opened or when its pictures are
extracted, no exception escapes and a vector is returned. -/
theorem getFromTrack_never_throws (av : AvLibrary) (cerr : List String) (track : Track) :
    ∃ (res : List CoverArt) (log : List String),
      Grabber.getFromTrack av cerr track = .ok (res, log) := by
  cases h : av.InputFormatContext track.getPath with
  | error e => exact ⟨_, _, getFromTrack_of_open_error av cerr track e h⟩
  | ok input =>
    cases hp : av.getPictures input with
    | error e => exact ⟨_, _, getFromTrack_of_pictures_error av cerr track input e h hp⟩
    | ok pictures => exact ⟨_, _, getFromTrack_of_pictures av cerr track input pictures h hp⟩

end CoverArt

namespace CoverArt

/-- C5, as stated, fails: for a track whose file cannot be opened `getFromTrack` returns
the empty vector, which holds no image at all, hence not a default image. -/
theorem getFromTrack_unopenable_returns_no_image :
    failingAv.InputFormatContext sampleTrack.getPath
        = .error (StdException.mk "cannot open")
    ∧ Grabber.getFromTrack failingAv [] sampleTrack
        = .ok ([], ["Cannot get pictures: cannot open"])
    ∧ ¬ ∃ (d : CoverArt) (log : List String),
        Grabber.getFromTrack failingAv [] sampleTrack = .ok ([d], log) := by
  have h := getFromTrack_of_open_error failingAv [] sampleTrack
    (StdException.mk "cannot open") rfl
  refine ⟨rfl, h, ?_⟩
  rintro ⟨d, log, hd⟩
  rw [h] at hd
  simp at hd

/-- C5, amended: for a track whose media file cannot be opened, or whose picture
extraction throws, `getFromTrack` raises no error and returns the empty vector, after
writing the failure to the error stream. -/
theorem getFromTrack_source_failure_returns_empty (av : AvLibrary) (cerr : List String)
    (track : Track) (e : StdException)
    (h : av.InputFormatContext track.getPath = .error e
      ∨ ∃ input, av.InputFormatContext track.getPath = .ok input
          ∧ av.getPictures input = .error e) :
    Grabber.getFromTrack av cerr track
      = .ok ([], cerr ++ ["Cannot get pictures: " ++ e.what]) := by
  rcases h with h | ⟨input, h, hp⟩
  · exact getFromTrack_of_open_error av cerr track e h
  · exact getFromTrack_of_pictures_error av cerr track input e h hp

/-- A track whose file cannot be opened yields the empty vector. -/
theorem getFromTrack_source_failure_returns_empty_witness :
    (failingAv.InputFormatContext sampleTrack.getPath
        = .error (StdException.mk "cannot open")
      ∨ ∃ input, failingAv.InputFormatContext sampleTrack.getPath = .ok input
          ∧ failingAv.getPictures input = .error (StdException.mk "cannot open"))
    ∧ Grabber.getFromTrack failingAv ["earlier output"] sampleTrack
        = .ok ([], ["earlier output"]
            ++ ["Cannot get pictures: " ++ (StdException.mk "cannot open").what]) :=
  ⟨Or.inl rfl, getFromTrack_source_failure_returns_empty _ _ _ _ (Or.inl rfl)⟩

/-- C6, as stated, fails: for a release without tracks `getFromRelease` returns the empty
vector, which holds no image at all, hence not a default image. -/
theorem getFromRelease_no_tracks_returns_no_image :
    (Release.mk []).getTracks = []
    ∧ Grabber.getFromRelease twoPicturesAv [] (Release.mk []) = .ok ([], [])
    ∧ ¬ ∃ (d : CoverArt) (log : List String),
        Grabber.getFromRelease twoPicturesAv [] (Release.mk []) = .ok ([d], log) := by
  have h : Grabber.getFromRelease twoPicturesAv [] (Release.mk []) = .ok ([], []) := rfl
  refine ⟨rfl, h, ?_⟩
  rintro ⟨d, log, hd⟩
  rw [h] at hd
  simp at hd

/-- C6, amended: for a release without tracks `getFromRelease` returns the empty vector;
it does so without calling `getFromTrack`: the media library has no influence on the
result and nothing is written to the error stream. -/
theorem getFromRelease_no_tracks_returns_empty (av : AvLibrary) (cerr : List String)
    (release : Release) (h : release.getTracks = []) :
    Grabber.getFromRelease av cerr release = .ok ([], cerr) := by
  unfold Grabber.getFromRelease
  simp only [h]
  rfl

/-- A release without tracks yields the empty vector even when no file can be opened. -/
theorem getFromRelease_no_tracks_returns_empty_witness :
    (Release.mk []).getTracks = []
    ∧ Grabber.getFromRelease failingAv ["earlier output"] (Release.mk [])
        = .ok ([], ["earlier output"]) :=
  ⟨rfl, getFromRelease_no_tracks_returns_empty _ _ _ rfl⟩

/-- C7, as stated, fails: for a track whose file holds two embedded pictures
`getFromTrack` returns two images, not the first one alone. -/
theorem getFromTrack_two_pictures_returns_two_images :
    twoPicturesAv.InputFormatContext sampleTrack.getPath = .ok 0
    ∧ twoPicturesAv.getPictures 0 = .ok [[1], [2]]
    ∧ Grabber.getFromTrack twoPicturesAv [] sampleTrack
        = .ok ([CoverArt.mk "application/octet-stream" [1],
                CoverArt.mk "application/octet-stream" [2]], [])
    ∧ Grabber.getFromTrack twoPicturesAv [] sampleTrack
        ≠ .ok ([CoverArt.mk "application/octet-stream" [1]], []) := by
  have h := getFromTrack_of_pictures twoPicturesAv [] sampleTrack 0 [[1], [2]] rfl rfl
  refine ⟨rfl, rfl, h, ?_⟩
  rw [h]
  simp

/-- C7, amended: for a track whose media file yields one or more embedded pictures,
`getFromTrack` returns one image per extracted picture, in extraction order; the first
image of the result carries the first extracted picture, and the result is a single image
exactly when a single picture was extracted. -/
theorem getFromTrack_returns_all_pictures (av : AvLibrary) (cerr : List String)
    (track : Track) (input : Nat) (first : List Nat) (others : List (List Nat))
    (h : av.InputFormatContext track.getPath = .ok input)
    (hp : av.getPictures input = .ok (first :: others)) :
    ∃ res : List CoverArt,
      Grabber.getFromTrack av cerr track = .ok (res, cerr)
      ∧ res = (first :: others).map (fun p => CoverArt.mk "application/octet-stream" p)
      ∧ res.head? = some (CoverArt.mk "application/octet-stream" first)
      ∧ res.length = others.length + 1
      ∧ (res.length = 1 ↔ others = []) := by
  refine ⟨_, getFromTrack_of_pictures av cerr track input _ h hp, rfl, rfl, by simp, ?_⟩
  simp

/-- A file with two embedded pictures yields both, the first one ahead. -/
theorem getFromTrack_returns_all_pictures_witness :
    twoPicturesAv.InputFormatContext sampleTrack.getPath = .ok 0
    ∧ twoPicturesAv.getPictures 0 = .ok ([1] :: [[2]])
    ∧ ∃ res : List CoverArt,
      Grabber.getFromTrack twoPicturesAv [] sampleTrack = .ok (res, [])
      ∧ res = ([1] :: [[2]]).map (fun p => CoverArt.mk "application/octet-stream" p)
      ∧ res.head? = some (CoverArt.mk "application/octet-stream" [1])
      ∧ res.length = [[2]].length + 1
      ∧ (res.length = 1 ↔ [[2]] = []) :=
  ⟨rfl, rfl, getFromTrack_returns_all_pictures twoPicturesAv [] sampleTrack 0 [1] [[2]] rfl rfl⟩

end CoverArt

/-! ## Audio formats -/

namespace Av

/-- C10: the numeric values of `Av::Format` are `MP3 = 0`, `OGG_OPUS = 1`,
`MATROSKA_OPUS = 2`, `OGG_VORBIS = 3` and `WEBM_VORBIS = 4`; they are pairwise distinct,
and converting a format to its integer and back gives the format again. -/
theorem format_values_fixed_and_roundtrip :
    (Format.MP3.toInt = 0 ∧ Format.OGG_OPUS.toInt = 1 ∧ Format.MATROSKA_OPUS.toInt = 2
      ∧ Format.OGG_VORBIS.toInt = 3 ∧ Format.WEBM_VORBIS.toInt = 4)
    ∧ Function.Injective Format.toInt
    ∧ (∀ f : Format, Format.ofInt f.toInt = some f) := by
  refine ⟨⟨rfl, rfl, rfl, rfl, rfl⟩, ?_, ?_⟩
  · intro a b h
    cases a <;> cases b <;> first | rfl | (exact absurd h (by decide))
  · intro f
    cases f <;> decide

end Av

/-! ## Directory scanning -/

namespace CoverArt

/-- No file name is lexically smaller than itself. -/
theorem lexLt_irrefl (a : List Char) : lexLt a a = false := by
  induction a with
  | nil => rfl
  | cons x xs ih => simp [lexLt, ih]

/-- The candidates of a list after an insertion. -/
theorem mem_insertCandidate (x c : CoverCandidate) (l : List CoverCandidate) :
    x ∈ insertCandidate c l ↔ x = c ∨ x ∈ l := by
  induction l with
  | nil => simp [insertCandidate]
  | cons d ds ih =>
    unfold insertCandidate
    split
    · simp
    · simp only [List.mem_cons, ih]
      tauto

/-- The head of a list after an insertion. -/
theorem head?_insertCandidate (c : CoverCandidate) (l : List CoverCandidate) :
    (insertCandidate c l).head?
      = some (match l.head? with
          | none => c
          | some d => if c.preferredTo d then c else d) := by
  cases l with
  | nil => rfl
  | cons d ds =>
    unfold insertCandidate
    split <;> simp [*]

/-- Every ordered candidate is one of the names, with its rank. -/
theorem mem_orderedCandidates (x : CoverCandidate) (names : List String) :
    x ∈ orderedCandidates names ↔ ∃ f ∈ names, x = CoverCandidate.mk f (rankOf f) := by
  induction names with
  | nil => simp [orderedCandidates]
  | cons f fs ih =>
    have h : orderedCandidates (f :: fs)
        = insertCandidate (CoverCandidate.mk f (rankOf f)) (orderedCandidates fs) := rfl
    rw [h, mem_insertCandidate, ih]
    simp

/-- Two different file names are ordered one way or the other. -/
theorem lexLt_total (a b : List Char) (hne : a ≠ b) (h : lexLt a b = false) :
    lexLt b a = true := by
  induction a generalizing b with
  | nil =>
    cases b with
    | nil => exact absurd rfl hne
    | cons y ys => simp [lexLt] at h
  | cons x xs ih =>
    cases b with
    | nil => rfl
    | cons y ys =>
      simp only [lexLt, Bool.or_eq_false_iff, decide_eq_false_iff_not, Bool.and_eq_false_imp,
        decide_eq_true_eq] at h
      obtain ⟨h1, h2⟩ := h
      simp only [lexLt, Bool.or_eq_true, decide_eq_true_eq, Bool.and_eq_true]
      by_cases hxy : x.toNat = y.toNat
      · have hc : x = y := by
          rw [← Char.ofNat_toNat x, ← Char.ofNat_toNat y, hxy]
        subst hc
        exact Or.inr ⟨rfl, ih ys (fun e => hne (by rw [e])) (h2 rfl)⟩
      · exact Or.inl (by omega)

/-- When no name of rank zero sorts before `cover.jpg`, it heads the ordered
candidates. -/
theorem head?_orderedCandidates_cover (names : List String) (hc : "cover.jpg" ∈ names)
    (hfirst : ∀ f ∈ names, rankOf f = 0 → lexLt f.toList "cover.jpg".toList = false) :
    (orderedCandidates names).head? = some (CoverCandidate.mk "cover.jpg" 0) := by
  have hr : rankOf "cover.jpg" = 0 := by decide
  induction names with
  | nil => simp at hc
  | cons f fs ih =>
    have h : orderedCandidates (f :: fs)
        = insertCandidate (CoverCandidate.mk f (rankOf f)) (orderedCandidates fs) := rfl
    rw [h, head?_insertCandidate]
    by_cases hin : "cover.jpg" ∈ fs
    · rw [ih hin (fun g hg => hfirst g (List.mem_cons_of_mem _ hg))]
      by_cases hr0 : rankOf f = 0
      · have hlt := hfirst f (List.mem_cons_self _ _) hr0
        have hp : (CoverCandidate.mk f (rankOf f)).preferredTo
            (CoverCandidate.mk "cover.jpg" 0) = false := by
          simp only [CoverCandidate.preferredTo, hr0, hlt]
          decide
        simp [hp]
      · simp [CoverCandidate.preferredTo, hr0]
    · have hf : f = "cover.jpg" := by
        rcases List.mem_cons.1 hc with h1 | h1
        · exact h1.symm
        · exact absurd h1 hin
      subst hf
      rw [hr]
      cases hd : (orderedCandidates fs).head? with
      | none => rfl
      | some d =>
        have hmem : d ∈ orderedCandidates fs := List.mem_of_mem_head? hd
        obtain ⟨g, hg, rfl⟩ := (mem_orderedCandidates d fs).1 hmem
        have hne : g ≠ "cover.jpg" := fun e => hin (e ▸ hg)
        by_cases hr0 : rankOf g = 0
        · have hlt := hfirst g (List.mem_cons_of_mem _ hg) hr0
          have hgt := lexLt_total g.toList "cover.jpg".toList
            (fun e => hne (String.ext e)) hlt
          have hp : (CoverCandidate.mk "cover.jpg" 0).preferredTo
              (CoverCandidate.mk g (rankOf g)) = true := by
            simp only [CoverCandidate.preferredTo, hr0, hgt]
            decide
          simp [hp]
        · have hpos : 0 < rankOf g := Nat.pos_of_ne_zero hr0
          simp [CoverCandidate.preferredTo, hpos]

/-- C8, as stated, fails: a directory that holds `cover.jpg` and `front.png` does not
always yield the image derived from `cover.jpg`. With `cover.bmp` beside them the lookup
selects `cover.bmp`, which ranks as `cover` too and sorts first; and when `cover.jpg` is
larger than the maximum source-file size, or does not decode, the lookup yields no
image. -/
theorem cover_jpg_not_always_selected :
    crowdedDirectory.listing = some ["cover.jpg", "front.png", "cover.bmp"]
    ∧ bestCandidate crowdedDirectory.listing = some "cover.bmp"
    ∧ Grabber.getFromDirectory sampleCodec 1000 crowdedDirectory 64
        = sampleCodec (crowdedDirectory.content "cover.bmp") 64
    ∧ Grabber.getFromDirectory sampleCodec 1000 crowdedDirectory 64
        ≠ sampleCodec (crowdedDirectory.content "cover.jpg") 64
    ∧ "cover.jpg" ∈ ["front.png", "notes.txt", "cover.png", "cover.jpg", "folder.jpeg"]
    ∧ "front.png" ∈ ["front.png", "notes.txt", "cover.png", "cover.jpg", "folder.jpeg"]
    ∧ sampleDirectory.listing
        = some ["front.png", "notes.txt", "cover.png", "cover.jpg", "folder.jpeg"]
    ∧ (sampleDirectory.content "cover.jpg").length = 3
    ∧ Grabber.getFromDirectory sampleCodec 2 sampleDirectory 64 = none
    ∧ Grabber.getFromDirectory (fun _ _ => none) 1000 sampleDirectory 64 = none := by
  decide

/-- C8, amended: the list of preferred cover base names is exactly `cover`, `front`, with
`cover` ranked strictly ahead of `front`; so for a directory that holds `cover.jpg` and
`front.png`, in which no image file ranked as `cover` sorts before `cover.jpg`, the
directory lookup selects `cover.jpg` and, when that file is within the size limit and
decodes, yields the image that the codec derives from it. -/
theorem cover_ranked_ahead_of_front (codec : List Nat → Nat → Option EncodedImage)
    (maxFileSize : Nat) (dir : Directory) (width : Nat) (files : List String)
    (hl : dir.listing = some files) (hc : "cover.jpg" ∈ files) (hf : "front.png" ∈ files)
    (hfirst : ∀ f ∈ files, hasAllowedExtension f = true → rankOf f = 0 →
      lexLt f.toList "cover.jpg".toList = false)
    (img : EncodedImage) (hsize : (dir.content "cover.jpg").length ≤ maxFileSize)
    (hcodec : codec (dir.content "cover.jpg") width = some img) :
    _preferredFileNames = ["cover", "front"]
    ∧ _preferredFileNames.indexOf "cover" < _preferredFileNames.indexOf "front"
    ∧ rankOf "cover.jpg" < rankOf "front.png"
    ∧ CoverCandidate.mk "front.png" 1 ∈ scan dir.listing
    ∧ (scan dir.listing).head? = some (CoverCandidate.mk "cover.jpg" 0)
    ∧ bestCandidate dir.listing = some "cover.jpg"
    ∧ Grabber.getFromDirectory codec maxFileSize dir width = some img := by
  have hhead : (scan dir.listing).head? = some (CoverCandidate.mk "cover.jpg" 0) := by
    rw [hl]
    apply head?_orderedCandidates_cover
    · exact List.mem_filter.2 ⟨hc, by decide⟩
    · intro f hfm hr0
      have := List.mem_filter.1 hfm
      exact hfirst f this.1 this.2 hr0
  have hbest : bestCandidate dir.listing = some "cover.jpg" := by
    simp [bestCandidate, hhead]
  refine ⟨rfl, by decide, by decide, ?_, hhead, hbest, ?_⟩
  · rw [hl]
    apply (mem_orderedCandidates _ _).2
    exact ⟨"front.png", List.mem_filter.2 ⟨hf, by decide⟩, by decide⟩
  · simp [Grabber.getFromDirectory, hbest, hsize, hcodec]

/-- A directory with `front.png`, `notes.txt`, `cover.png`, `cover.jpg` and
`folder.jpeg` yields the image derived from `cover.jpg`. -/
theorem cover_ranked_ahead_of_front_witness :
    sampleDirectory.listing
      = some ["front.png", "notes.txt", "cover.png", "cover.jpg", "folder.jpeg"]
    ∧ "cover.jpg" ∈ ["front.png", "notes.txt", "cover.png", "cover.jpg", "folder.jpeg"]
    ∧ "front.png" ∈ ["front.png", "notes.txt", "cover.png", "cover.jpg", "folder.jpeg"]
    ∧ (∀ f ∈ ["front.png", "notes.txt", "cover.png", "cover.jpg", "folder.jpeg"],
        hasAllowedExtension f = true → rankOf f = 0 →
          lexLt f.toList "cover.jpg".toList = false)
    ∧ (sampleDirectory.content "cover.jpg").length ≤ 1000
    ∧ sampleCodec (sampleDirectory.content "cover.jpg") 64
        = some (EncodedImage.mk [255, 216, 255] "image/jpeg")
    ∧ bestCandidate sampleDirectory.listing = some "cover.jpg"
    ∧ Grabber.getFromDirectory sampleCodec 1000 sampleDirectory 64
        = some (EncodedImage.mk [255, 216, 255] "image/jpeg") :=
  have h := cover_ranked_ahead_of_front sampleCodec 1000 sampleDirectory 64
    ["front.png", "notes.txt", "cover.png", "cover.jpg", "folder.jpeg"] rfl (by decide)
    (by decide) (by decide) (EncodedImage.mk [255, 216, 255] "image/jpeg") (by decide)
    (by decide)
  ⟨rfl, by decide, by decide, by decide, by decide, by decide, h.2.2.2.2.2.1,
    h.2.2.2.2.2.2⟩

end CoverArt

/-! ## The bounded cache -/

namespace CoverArt

/-- After eviction an entry that is no larger than the maximum fits. -/
theorem evict_total_fits (maxSize newSize : Nat)
    (es : List (CacheEntryDesc × EncodedImage)) (total : Nat) (h : total = payloadSum es)
    (hn : newSize ≤ maxSize) :
    (CacheStore.evict maxSize newSize es total).2 + newSize ≤ maxSize := by
  induction es generalizing total with
  | nil =>
    simp [payloadSum] at h
    simp [CacheStore.evict, h, hn]
  | cons e rest ih =>
    unfold CacheStore.evict
    split
    · apply ih
      simp [payloadSum] at h ⊢
      omega
    · simp only
      omega

/-- A payload that fits in the empty store, under a key that is not present, is added
as the newest entry. -/
theorem insert_stores_fitting (maxSize : Nat) (s : CacheStore) (key : CacheEntryDesc)
    (image : EncodedImage) (h : s.byteTotal = payloadSum s.entries)
    (hkey : s.entries.any (fun e => e.1.eq key) = false)
    (hn : image.getDataSize ≤ maxSize) :
    (CacheStore.insert maxSize s key image).entries.getLast? = some (key, image) := by
  have hfit := evict_total_fits maxSize image.getDataSize s.entries s.byteTotal h hn
  simp [CacheStore.insert, hkey, hfit]

/-- Three payloads of two bytes into a store of five bytes: the third insertion evicts
the oldest entry, and a payload of six bytes is not stored. -/
theorem insertAll_evicts_oldest :
    (CacheStore.insertAll 5 CacheStore.empty
        [(CacheEntryDesc.mk .Track 1 64, EncodedImage.mk [1, 2] "image/jpeg"),
         (CacheEntryDesc.mk .Track 2 64, EncodedImage.mk [3, 4] "image/jpeg"),
         (CacheEntryDesc.mk .Release 1 64, EncodedImage.mk [5, 6] "image/jpeg")])
      = CacheStore.mk
          [(CacheEntryDesc.mk .Track 2 64, EncodedImage.mk [3, 4] "image/jpeg"),
           (CacheEntryDesc.mk .Release 1 64, EncodedImage.mk [5, 6] "image/jpeg")] 4 0 0
    ∧ (CacheStore.insert 5 CacheStore.empty (CacheEntryDesc.mk .Track 1 64)
        (EncodedImage.mk [1, 2, 3, 4, 5, 6] "image/jpeg")) = CacheStore.empty := by
  decide

end CoverArt

/-! ## The track selector of the play queue -/

namespace UserInterface.Desktop

/-- A value of type `int` is unchanged by the conversion to `int`. -/
theorem toInt_of_isInt (x : Int) (h : isInt x) : toInt x = x := by
  unfold toInt
  obtain ⟨h1, h2⟩ := h
  omega

/-- The conversion to `int` yields a value of type `int`. -/
theorem isInt_toInt (x : Int) : isInt (toInt x) := by
  unfold toInt
  constructor <;> omega

/-- Converting an `int` to `std::size_t` and back gives the `int` again. -/
theorem toInt_toSizeT (x : Int) (h : isInt x) : toInt ((toSizeT x : Nat) : Int) = x := by
  unfold toSizeT toInt
  obtain ⟨h1, h2⟩ := h
  rw [Int.toNat_of_nonneg (by omega)]
  omega

/-- A non-negative `int` keeps its value when converted to `std::size_t`. -/
theorem toSizeT_of_nonneg (x : Int) (h0 : 0 ≤ x) (h : x < 2147483648) :
    toSizeT x = x.toNat := by
  unfold toSizeT
  congr 1
  omega

/-- Exchanging two entries of a table permutes it. -/
theorem set_set_perm_self (t : List Int) (i j : Nat) (hi : i < t.length)
    (hj : j < t.length) : ((t.set i t[j]).set j t[i]).Perm t := by
  rw [List.perm_iff_count]
  intro a
  rw [List.count_set _ _ _ _ (by simpa using hj), List.count_set _ _ _ _ hi]
  have h1 := List.count_pos_iff.2 (List.getElem_mem hi)
  have h2 := List.count_pos_iff.2 (List.getElem_mem hj)
  simp only [List.getElem_set]
  by_cases hij : i = j
  · subst hij
    by_cases ha : t[i] = a
    · subst ha
      simp
    · simp [ha]
  · simp only [hij, if_false]
    by_cases ha : t[i] = a <;> by_cases hb : t[j] = a
    · simp [ha, hb]
      rw [ha] at h1
      omega
    · simp [ha, hb]
      rw [ha] at h1
      omega
    · simp [ha, hb]
    · simp [ha, hb]

/-- One iteration of the shuffle loop with both indices in range permutes the table. -/
theorem swapAt_perm (t : List Int) (i : Nat) (val1 : Int) (hi : i < t.length)
    (hv : toSizeT val1 < t.length) :
    ∃ t', swapAt t i val1 = some t' ∧ t'.Perm t := by
  refine ⟨(t.set i t[toSizeT val1]).set (toSizeT val1) t[i], ?_, set_set_perm_self t i _ hi hv⟩
  simp [swapAt, List.getElem?_eq_getElem hi, List.getElem?_eq_getElem hv]

/-- The shuffle loop, run with in-range draws, ends and permutes the table. -/
theorem shuffleLoop_perm (draws : Nat → Int) (left i : Nat) (t : List Int)
    (hlen : t.length = i + left)
    (hd : ∀ k, i ≤ k → k < i + left → toSizeT (draws k) < i + left) :
    ∃ t', shuffleLoop draws left i t = some t' ∧ t'.Perm t := by
  induction left generalizing i t with
  | zero => exact ⟨t, rfl, List.Perm.refl t⟩
  | succ left ih =>
    obtain ⟨t1, h1, p1⟩ := swapAt_perm t i (draws i) (by omega)
      (by rw [hlen]; exact hd i (Nat.le_refl i) (by omega))
    obtain ⟨t2, h2, p2⟩ := ih (i + 1) t1 (by rw [p1.length_eq, hlen]; omega)
      (fun k hk1 hk2 => by
        have := hd k (by omega) (by omega)
        omega)
    refine ⟨t2, ?_, p2.trans p1⟩
    simp [shuffleLoop, h1, h2]

/-- In-range draws of type `int` index the table within its bounds. -/
theorem toSizeT_draw_lt (draws : Nat → Int) (n : Nat)
    (hd : ∀ i : Nat, i < n → isInt (draws i) ∧ (i : Int) ≤ draws i ∧ draws i ≤ (n : Int) - 1)
    (k : Nat) (hk : k < n) : toSizeT (draws k) < n := by
  obtain ⟨⟨_, h2⟩, h3, h4⟩ := hd k hk
  rw [toSizeT_of_nonneg _ (by omega) h2]
  omega

/-- With in-range draws `setSize` ends and leaves a well-formed selector at position 0. -/
theorem setSize_wellFormed (draws : Nat → Int) (s : TrackSelector) (n : Nat)
    (hd : ∀ i : Nat, i < n → isInt (draws i) ∧ (i : Int) ≤ draws i ∧ draws i ≤ (n : Int) - 1) :
    ∃ s', TrackSelector.setSize draws s n = some s' ∧ s'._size = n ∧ s'._curPos = 0
      ∧ s'._shuffle = s._shuffle ∧ s'._loop = s._loop ∧ s'.WellFormed := by
  by_cases hn : n = 0
  · subst hn
    refine ⟨{ s with _size := 0, _curPos := 0, _trackPos := [] }, ?_, rfl, rfl, rfl, rfl, ?_⟩
    · simp [TrackSelector.setSize, TrackSelector.refreshPositions]
    · simp [TrackSelector.WellFormed]
  · obtain ⟨t, ht, pt⟩ := shuffleLoop_perm draws n 0
      ((List.range n).map (fun (i : Nat) => toInt (i : Int))) (by simp)
      (fun k _ hk => by
        have := toSizeT_draw_lt draws n hd k (by omega)
        omega)
    refine ⟨{ s with _size := n, _curPos := 0, _trackPos := t }, ?_, rfl, rfl, rfl, rfl, pt⟩
    simp [TrackSelector.setSize, TrackSelector.refreshPositions, hn, ht]

/-- When in-range draws of type `int` exist, every row number below the size is an
`int`. -/
theorem toInt_row_of_draws (draws : Nat → Int) (n : Nat)
    (hd : ∀ i : Nat, i < n → isInt (draws i) ∧ (i : Int) ≤ draws i ∧ draws i ≤ (n : Int) - 1)
    (k : Nat) (hk : k < n) : toInt (k : Int) = (k : Int) := by
  obtain ⟨⟨_, h2⟩, h3, _⟩ := hd (n - 1) (by omega)
  apply toInt_of_isInt
  constructor <;> omega

/-- C11: for every size `n` and every sequence of draws of which the `i`-th lies in
`[i, n-1]`, `setSize(n)` ends, and afterwards the shuffle table has length `n` and is a
permutation of the row numbers `0..n-1`, each occurring exactly once, and the current
position is 0. -/
theorem setSize_trackPos_is_permutation (draws : Nat → Int) (s : TrackSelector) (n : Nat)
    (hd : ∀ i : Nat, i < n → isInt (draws i) ∧ (i : Int) ≤ draws i ∧ draws i ≤ (n : Int) - 1) :
    ∃ s', TrackSelector.setSize draws s n = some s'
      ∧ s'._size = n
      ∧ s'._trackPos.length = n
      ∧ s'._trackPos.Perm ((List.range n).map (fun (i : Nat) => (i : Int)))
      ∧ (∀ r : Nat, r < n → s'._trackPos.count (r : Int) = 1)
      ∧ s'._curPos = 0 := by
  obtain ⟨s', hs, hsize, hpos, _, _, hwf⟩ := setSize_wellFormed draws s n hd
  have hmap : (List.range n).map (fun (i : Nat) => toInt (i : Int))
      = (List.range n).map (fun (i : Nat) => (i : Int)) := by
    apply List.map_congr_left
    intro k hk
    exact toInt_row_of_draws draws n hd k (List.mem_range.1 hk)
  have hperm : s'._trackPos.Perm ((List.range n).map (fun (i : Nat) => (i : Int))) := by
    have := hwf
    rw [TrackSelector.WellFormed, hsize, hmap] at this
    exact this
  refine ⟨s', hs, hsize, ?_, hperm, ?_, hpos⟩
  · rw [hperm.length_eq]
    simp
  · intro r hr
    rw [hperm.count_eq]
    apply List.count_eq_one_of_mem
    · exact (List.nodup_range n).map Nat.cast_injective
    · exact List.mem_map.2 ⟨r, List.mem_range.2 hr, rfl⟩

/-- A table of four rows shuffled with draws that always pick the last row. -/
theorem setSize_trackPos_is_permutation_witness :
    (∀ i : Nat, i < 4 → isInt (lastRowDraws 4 i) ∧ (i : Int) ≤ lastRowDraws 4 i
        ∧ lastRowDraws 4 i ≤ ((4 : Nat) : Int) - 1)
    ∧ ∃ s', TrackSelector.setSize (lastRowDraws 4) TrackSelector.new 4 = some s'
      ∧ s'._size = 4
      ∧ s'._trackPos.length = 4
      ∧ s'._trackPos.Perm ((List.range 4).map (fun (i : Nat) => (i : Int)))
      ∧ (∀ r : Nat, r < 4 → s'._trackPos.count (r : Int) = 1)
      ∧ s'._curPos = 0 :=
  have h : ∀ i : Nat, i < 4 → isInt (lastRowDraws 4 i) ∧ (i : Int) ≤ lastRowDraws 4 i
      ∧ lastRowDraws 4 i ≤ ((4 : Nat) : Int) - 1 := by
    intro i hi
    simp only [lastRowDraws, isInt]
    omega
  ⟨h, setSize_trackPos_is_permutation (lastRowDraws 4) TrackSelector.new 4 h⟩

end UserInterface.Desktop

namespace UserInterface.Desktop

/-- The search loop finds a row that is in the table. -/
theorem findRow_of_mem (rowId : Int) (t : List Int) (k : Nat) (h : rowId ∈ t) :
    ∃ i, findRow rowId t k = some (k + i) ∧ t[i]? = some rowId := by
  induction t generalizing k with
  | nil => simp at h
  | cons row rest ih =>
    by_cases hr : rowId = row
    · exact ⟨0, by simp [findRow, hr], by simp [hr]⟩
    · have hmem : rowId ∈ rest := by
        rcases List.mem_cons.1 h with h1 | h1
        · exact absurd h1 hr
        · exact h1
      obtain ⟨i, hi, hg⟩ := ih (k + 1) hmem
      refine ⟨i + 1, ?_, by simpa using hg⟩
      simp only [findRow, hr, if_false, hi]
      congr 1
      omega

/-- The table of a well-formed selector has `_size` entries. -/
theorem wellFormed_length_eq (s : TrackSelector) (h : s.WellFormed) :
    s._trackPos.length = s._size := by
  rw [List.Perm.length_eq h]
  simp

/-- The table of a well-formed selector holds every row number below `_size`. -/
theorem wellFormed_mem_row (s : TrackSelector) (h : s.WellFormed) (k : Nat)
    (hk : k < s._size) : toInt (k : Int) ∈ s._trackPos :=
  (List.Perm.mem_iff h).2 (List.mem_map.2 ⟨k, List.mem_range.2 hk, rfl⟩)

/-- In shuffle mode, after `setPosByRowId` on a row of the table the current row is that
row. -/
theorem getCurrent_setPosByRowId_shuffle (s : TrackSelector) (rowId : Int)
    (hs : s._shuffle = true) (hint : isInt rowId) (hmem : rowId ∈ s._trackPos) :
    (s.setPosByRowId rowId).getCurrent = some rowId := by
  obtain ⟨i, hi, hg⟩ := findRow_of_mem rowId s._trackPos 0 hmem
  simp only [Nat.zero_add] at hi
  simp [TrackSelector.setPosByRowId, TrackSelector.getCurrent, hs, hi, hg,
    toInt_toSizeT rowId hint]

/-- C12: switching shuffle keeps the current track: on a non-empty selector whose
position is in range, `getCurrent` returns the same row after `setShuffle(enable)` as
before it, whenever `enable` differs from the current shuffle flag. -/
theorem setShuffle_keeps_current_row (s : TrackSelector) (enable : Bool)
    (hwf : s.WellFormed) (hsize : s._size ≠ 0) (hpos : s._curPos < s._size)
    (hen : enable ≠ s._shuffle) :
    ∃ (row : Int) (s' : TrackSelector),
      s.getCurrent = some row ∧ s.setShuffle enable = some s'
        ∧ s'.getCurrent = some row := by
  have hlen := wellFormed_length_eq s hwf
  cases hsh : s._shuffle with
  | false =>
    have he : enable = true := by
      cases enable with
      | true => rfl
      | false => exact absurd hsh.symm hen
    subst he
    refine ⟨toInt (s._curPos : Int),
      ({ s with _shuffle := true } : TrackSelector).setPosByRowId (toInt (s._curPos : Int)),
      by simp [TrackSelector.getCurrent, hsh],
      by simp [TrackSelector.setShuffle, hsize], ?_⟩
    exact getCurrent_setPosByRowId_shuffle _ _ rfl (isInt_toInt _)
      (wellFormed_mem_row s hwf s._curPos hpos)
  | true =>
    have he : enable = false := by
      cases enable with
      | false => rfl
      | true => exact absurd hsh.symm hen
    subst he
    have hb : s._curPos < s._trackPos.length := by omega
    have hget : s._trackPos[s._curPos]? = some s._trackPos[s._curPos] :=
      List.getElem?_eq_getElem hb
    refine ⟨toInt (toSizeT s._trackPos[s._curPos]),
      ({ s with _shuffle := false } : TrackSelector).setPos s._trackPos[s._curPos],
      by simp [TrackSelector.getCurrent, hsh, hget],
      by simp [TrackSelector.setShuffle, hsize, hget], ?_⟩
    simp [TrackSelector.getCurrent, TrackSelector.setPos]

/-- C13: `setPosByRowId` sets the internal position from the row: on a selector of size
`n`, in either shuffle mode, `getCurrent` returns `r` after `setPosByRowId(r)`, for every
row `r` with `0 <= r < n`. -/
theorem setPosByRowId_then_getCurrent (s : TrackSelector) (rowId : Int)
    (hwf : s.WellFormed) (hint : isInt rowId)
    (hrow : 0 ≤ rowId ∧ rowId < (s._size : Int)) :
    (s.setPosByRowId rowId).getCurrent = some rowId := by
  cases hsh : s._shuffle with
  | true =>
    apply getCurrent_setPosByRowId_shuffle s rowId hsh hint
    have h := wellFormed_mem_row s hwf rowId.toNat (by omega)
    rw [Int.toNat_of_nonneg hrow.1, toInt_of_isInt rowId hint] at h
    exact h
  | false =>
    simp [TrackSelector.setPosByRowId, TrackSelector.getCurrent, hsh,
      toInt_toSizeT rowId hint]

/-- A shuffled selector of four rows at position 1 keeps row 0 when shuffle is switched
off. -/
theorem setShuffle_keeps_current_row_witness :
    shuffledSelector.WellFormed ∧ shuffledSelector._size ≠ 0
    ∧ shuffledSelector._curPos < shuffledSelector._size
    ∧ false ≠ shuffledSelector._shuffle
    ∧ ∃ (row : Int) (s' : TrackSelector),
      shuffledSelector.getCurrent = some row ∧ shuffledSelector.setShuffle false = some s'
        ∧ s'.getCurrent = some row :=
  ⟨by decide, by decide, by decide, by decide,
    setShuffle_keeps_current_row shuffledSelector false (by decide) (by decide) (by decide)
      (by decide)⟩

/-- On a shuffled selector of four rows, `setPosByRowId(2)` makes row 2 current. -/
theorem setPosByRowId_then_getCurrent_witness :
    shuffledSelector.WellFormed ∧ isInt 2
    ∧ ((0 : Int) ≤ 2 ∧ (2 : Int) < (shuffledSelector._size : Int))
    ∧ (shuffledSelector.setPosByRowId 2).getCurrent = some 2 :=
  ⟨by decide, by decide, by decide,
    setPosByRowId_then_getCurrent shuffledSelector 2 (by decide) (by decide) (by decide)⟩

end UserInterface.Desktop

namespace UserInterface.Desktop

/-- The selector made by the constructor is well-formed. -/
theorem wellFormed_new : TrackSelector.new.WellFormed := by
  decide

/-- The operation `setPosByRowId` keeps a selector well-formed. -/
theorem wellFormed_setPosByRowId (s : TrackSelector) (rowId : Int) (h : s.WellFormed) :
    (s.setPosByRowId rowId).WellFormed := by
  unfold TrackSelector.setPosByRowId
  split
  · split
    · exact h
    · exact h
  · exact h

/-- The operation `setShuffle` keeps a selector well-formed. -/
theorem wellFormed_setShuffle (s s' : TrackSelector) (enable : Bool) (h : s.WellFormed)
    (hs : s.setShuffle enable = some s') : s'.WellFormed := by
  unfold TrackSelector.setShuffle at hs
  simp only at hs
  split at hs
  · split at hs
    · simp only [Option.some.injEq] at hs
      rw [← hs]
      exact wellFormed_setPosByRowId _ _ h
    · simp only [Option.map_eq_some'] at hs
      obtain ⟨row, _, hrow⟩ := hs
      rw [← hrow]
      exact h
  · simp only [Option.some.injEq] at hs
    rw [← hs]
    exact h

end UserInterface.Desktop

/-! ## The clusterer -/

/-- A push to a cell within the map succeeds: the map keeps its length, holds one value
more, the cell now holds the value, and every cell keeps the values it had. -/
theorem pushAt_spec {T : Type} (cells : List (List T)) (index : Nat) (value : T)
    (h : index < cells.length) :
    ∃ r, pushAt cells index value = some r
      ∧ r.length = cells.length
      ∧ (r.map List.length).sum = (cells.map List.length).sum + 1
      ∧ (∃ vals, r[index]? = some vals ∧ value ∈ vals)
      ∧ (∀ (j : Nat) (old : List T), cells[j]? = some old →
          ∃ now : List T, r[j]? = some now ∧ ∀ x ∈ old, x ∈ now) := by
  induction cells generalizing index with
  | nil => simp at h
  | cons cell rest ih =>
    cases index with
    | zero =>
      refine ⟨(cell ++ [value]) :: rest, rfl, rfl, ?_, ⟨cell ++ [value], by simp, by simp⟩, ?_⟩
      · simp
        omega
      · intro j old hj
        cases j with
        | zero =>
          simp only [List.getElem?_cons_zero, Option.some.injEq] at hj
          subst hj
          exact ⟨cell ++ [value], by simp, fun x hx => List.mem_append_left _ hx⟩
        | succ j => exact ⟨old, by simpa using hj, fun x hx => hx⟩
    | succ index =>
      obtain ⟨r, hr, hlen, hsum, hcell, hmono⟩ := ih index (by simpa using h)
      refine ⟨cell :: r, by simp [pushAt, hr], by simp [hlen], ?_, by simpa using hcell, ?_⟩
      · simp [hsum]
        omega
      · intro j old hj
        cases j with
        | zero => exact ⟨old, by simpa using hj, fun x hx => hx⟩
        | succ j => simpa using hmono j old (by simpa using hj)

/-- Classifying samples whose cells all lie within the map succeeds; the normaliser, the
network and the layout stay as they were, the values grow by one per sample, every cell
keeps its values and the cell of every sample holds the value of that sample. -/
theorem classifyData_spec {V T D N : Type} (lib : SOM.Library V D N) (samples : List (V × T))
    (c : Clusterer T D N)
    (hin : ∀ v : V,
      (lib.classify c._network (lib.normalizeData c._dataNormalizer v)).x
        + (lib.classify c._network (lib.normalizeData c._dataNormalizer v)).y * c._width
        < c._values.length) :
    ∃ c', Clusterer.classifyData lib c samples = some c'
      ∧ c'._network = c._network ∧ c'._dataNormalizer = c._dataNormalizer
      ∧ c'._width = c._width ∧ c'._height = c._height
      ∧ c'._values.length = c._values.length
      ∧ c'.valueCount = c.valueCount + samples.length
      ∧ (∀ (j : Nat) (old : List T), c._values[j]? = some old →
          ∃ now : List T, c'._values[j]? = some now ∧ ∀ x ∈ old, x ∈ now)
      ∧ (∀ v t, (v, t) ∈ samples → ∃ vals, c'.getClusterValues lib v = some vals ∧ t ∈ vals) := by
  induction samples generalizing c with
  | nil =>
    exact ⟨c, rfl, rfl, rfl, rfl, rfl, rfl, rfl, fun j old h => ⟨old, h, fun x hx => hx⟩,
      fun v t h => by simp at h⟩
  | cons sample rest ih =>
    obtain ⟨values, hpush, hlen, hsum, ⟨vals, hcell, hval⟩, hmono⟩ :=
      pushAt_spec c._values _ sample.2 (hin sample.1)
    obtain ⟨c', hc', hnet, hnorm, hw, hh, hlen', hcount, hmono', hall⟩ :=
      ih { c with _values := values } (by simpa [hlen] using hin)
    refine ⟨c', ?_, hnet, hnorm, hw, hh, by rw [hlen']; exact hlen, ?_, ?_, ?_⟩
    · simp only [Clusterer.classifyData, hpush]
      exact hc'
    · rw [hcount]
      simp only [Clusterer.valueCount, hsum, List.length_cons]
      omega
    · intro j old hj
      obtain ⟨mid, hmid, hsub⟩ := hmono j old hj
      obtain ⟨now, hnow, hsub'⟩ := hmono' j mid hmid
      exact ⟨now, hnow, fun x hx => hsub' x (hsub x hx)⟩
    · intro v t hvt
      rcases List.mem_cons.1 hvt with h | h
      · obtain ⟨now, hnow, hsub⟩ := hmono' _ vals hcell
        subst h
        exact ⟨now,
          by simpa [Clusterer.getClusterValues, Clusterer.getValues, hnet, hnorm, hw] using hnow,
          hsub _ hval⟩
      · exact hall v t h

/-- C14: the clusterer associates each input vector with the values of its cell: when
the trained network classifies within the 3x3 map, the constructor succeeds, for every
training sample `(v, t)` the list returned by `getClusterValues(v)` contains `t`, and the
cells hold as many values in total as there are training samples. -/
theorem clusterer_values_of_samples {V T D N : Type} (lib : SOM.Library V D N)
    (samples : List (V × T)) (inputDimCount iterationCount : Nat)
    (hgrid : ∀ v : V,
      (lib.classify (Clusterer.trainedNetwork lib samples inputDimCount iterationCount) v).x < 3
      ∧ (lib.classify (Clusterer.trainedNetwork lib samples inputDimCount iterationCount) v).y
          < 3) :
    ∃ c : Clusterer T D N,
      Clusterer.new lib samples inputDimCount iterationCount = some c
      ∧ c._values.length = 3 * 3
      ∧ (∀ v t, (v, t) ∈ samples → ∃ vals, c.getClusterValues lib v = some vals ∧ t ∈ vals)
      ∧ c.valueCount = samples.length := by
  obtain ⟨c', hc', _, _, _, _, hlen, hcount, _, hall⟩ :=
    classifyData_spec lib samples
      (Clusterer.trainNetwork lib
        ({ _width := 3, _height := 3, _values := List.replicate (3 * 3) ([] : List T),
           _dataNormalizer := lib.newDataNormalizer inputDimCount,
           _network := lib.newNetwork 3 3 inputDimCount } : Clusterer T D N)
        samples iterationCount)
      (fun v => by
        have h := hgrid (lib.normalizeData
          (lib.computeNormalizationFactors (lib.newDataNormalizer inputDimCount)
            (samples.map (fun sample => sample.1))) v)
        simp only [Clusterer.trainedNetwork, Clusterer.trainNetwork] at h
        simp only [Clusterer.trainNetwork, List.length_replicate]
        omega)
  refine ⟨c', hc', ?_, hall, ?_⟩
  · rw [hlen]
    simp [Clusterer.trainNetwork]
  · rw [hcount]
    simp [Clusterer.valueCount, Clusterer.trainNetwork]

/-- Four samples on the remainder map: each value is found in the cell of its vector. -/
theorem clusterer_values_of_samples_witness :
    (∀ v : Nat,
      (sampleSom.classify (Clusterer.trainedNetwork (T := String) sampleSom
          [(0, "a"), (4, "b"), (9, "c"), (8, "d")] 1 10) v).x < 3
      ∧ (sampleSom.classify (Clusterer.trainedNetwork (T := String) sampleSom
          [(0, "a"), (4, "b"), (9, "c"), (8, "d")] 1 10) v).y < 3)
    ∧ ∃ c : Clusterer String Unit Unit,
      Clusterer.new sampleSom [(0, "a"), (4, "b"), (9, "c"), (8, "d")] 1 10 = some c
      ∧ c._values.length = 3 * 3
      ∧ (∀ v t, (v, t) ∈ [(0, "a"), (4, "b"), (9, "c"), (8, "d")] →
          ∃ vals, c.getClusterValues sampleSom v = some vals ∧ t ∈ vals)
      ∧ c.valueCount = [(0, "a"), (4, "b"), (9, "c"), (8, "d")].length :=
  have h : ∀ v : Nat,
      (sampleSom.classify (Clusterer.trainedNetwork (T := String) sampleSom
          [(0, "a"), (4, "b"), (9, "c"), (8, "d")] 1 10) v).x < 3
      ∧ (sampleSom.classify (Clusterer.trainedNetwork (T := String) sampleSom
          [(0, "a"), (4, "b"), (9, "c"), (8, "d")] 1 10) v).y < 3 :=
    fun v => ⟨Nat.mod_lt _ (by decide), Nat.mod_lt _ (by decide)⟩
  ⟨h, clusterer_values_of_samples sampleSom _ 1 10 h⟩

/-! ## High level clusters -/

namespace Database

/-- The names of the `high_level` clusters of a track are the names of the rows of that
type the track is attached to. -/
theorem mem_highLevelNames (db : Session) (trackId : Nat) (n : String) :
    n ∈ highLevelNames db trackId
      ↔ ∃ c ∈ db.clusters, trackId ∈ c.tracks ∧ c.type = "high_level" ∧ c.name = n := by
  simp only [highLevelNames, Track.getClusters, List.mem_map, List.mem_filter,
    decide_eq_true_eq]
  constructor
  · rintro ⟨c, ⟨⟨hc, ht⟩, hty⟩, hn⟩
    exact ⟨c, hc, ht, hty, hn⟩
  · rintro ⟨c, hc, ht, hty, hn⟩
    exact ⟨c, ⟨⟨hc, ht⟩, hty⟩, hn⟩

/-- The first loop keeps only `high_level` clusters of the track whose names are new
names, leaves only new names over, accounts for every new name, and does not touch the
clusters of the other types. -/
theorem removeStale_spec (trackId : Nat) (rows : List Cluster) (names : List String) :
    (∀ c ∈ (removeStale trackId rows names).1,
        trackId ∈ c.tracks → c.type = "high_level" → c.name ∈ names)
    ∧ (∀ n ∈ (removeStale trackId rows names).2, n ∈ names)
    ∧ (∀ n ∈ names, n ∈ (removeStale trackId rows names).2
        ∨ ∃ c ∈ (removeStale trackId rows names).1,
            trackId ∈ c.tracks ∧ c.type = "high_level" ∧ c.name = n)
    ∧ ((removeStale trackId rows names).1.filter
          (fun c => decide (trackId ∈ c.tracks) && decide (c.type ≠ "high_level"))
        = rows.filter
          (fun c => decide (trackId ∈ c.tracks) && decide (c.type ≠ "high_level"))) := by
  induction rows generalizing names with
  | nil => simp [removeStale]
  | cons row rest ih =>
    by_cases ht : trackId ∈ row.tracks
    · by_cases hty : row.type = "high_level"
      · by_cases hn : row.name ∈ names
        · obtain ⟨ha, hb, hc, hd⟩ := ih (names.erase row.name)
          simp only [removeStale, ht, hty, hn, if_true, ne_eq, not_true_eq_false, if_false]
          refine ⟨?_, ?_, ?_, ?_⟩
          · intro c hc' h1 h2
            rcases List.mem_cons.1 hc' with h | h
            · rw [h]; exact hn
            · exact List.mem_of_mem_erase (ha c h h1 h2)
          · intro n hn'
            exact List.mem_of_mem_erase (hb n hn')
          · intro n hn'
            by_cases hnr : n = row.name
            · exact Or.inr ⟨row, List.mem_cons_self _ _, ht, hty, hnr.symm⟩
            · rcases hc n ((List.mem_erase_of_ne hnr).2 hn') with h | ⟨c, hcm, h⟩
              · exact Or.inl h
              · exact Or.inr ⟨c, List.mem_cons_of_mem _ hcm, h⟩
          · simpa [List.filter_cons, ht, hty] using hd
        · obtain ⟨ha, hb, hc, hd⟩ := ih names
          simp only [removeStale, ht, hty, hn, if_true, ne_eq, not_true_eq_false, if_false]
          refine ⟨ha, hb, hc, ?_⟩
          simpa [List.filter_cons, ht, hty] using hd
      · obtain ⟨ha, hb, hc, hd⟩ := ih names
        simp only [removeStale, ht, hty, if_true, ne_eq, not_false_eq_true]
        refine ⟨?_, hb, ?_, ?_⟩
        · intro c hc' h1 h2
          rcases List.mem_cons.1 hc' with h | h
          · rw [h] at h2; exact absurd h2 hty
          · exact ha c h h1 h2
        · intro n hn'
          rcases hc n hn' with h | ⟨c, hcm, h⟩
          · exact Or.inl h
          · exact Or.inr ⟨c, List.mem_cons_of_mem _ hcm, h⟩
        · simpa [List.filter_cons, ht, hty] using hd
    · obtain ⟨ha, hb, hc, hd⟩ := ih names
      simp only [removeStale, ht, if_false]
      refine ⟨?_, hb, ?_, ?_⟩
      · intro c hc' h1 h2
        rcases List.mem_cons.1 hc' with h | h
        · rw [h] at h1; exact absurd h1 ht
        · exact ha c h h1 h2
      · intro n hn'
        rcases hc n hn' with h | ⟨c, hcm, h⟩
        · exact Or.inl h
        · exact Or.inr ⟨c, List.mem_cons_of_mem _ hcm, h⟩
      · simpa [List.filter_cons, ht] using hd

/-- A successful search splits the table at a row of the type and name looked for. -/
theorem findCluster_some (type name : String) (rows : List Cluster) (k j : Nat)
    (h : findCluster type name rows k = some j) :
    ∃ pre c post, rows = pre ++ c :: post ∧ j = k + pre.length
      ∧ c.type = type ∧ c.name = name := by
  induction rows generalizing k with
  | nil => simp [findCluster] at h
  | cons row rest ih =>
    by_cases hr : row.type = type ∧ row.name = name
    · simp only [findCluster, hr, and_self, if_true, Option.some.injEq] at h
      exact ⟨[], row, rest, rfl, by simp [h], hr.1, hr.2⟩
    · simp only [findCluster, hr, if_false] at h
      obtain ⟨pre, c, post, h1, h2, h3⟩ := ih (k + 1) h
      refine ⟨row :: pre, c, post, by simp [h1], ?_, h3⟩
      simp only [List.length_cons]
      omega

/-- Attaching a track to the row that follows a prefix changes that row only. -/
theorem addTrackAt_append (trackId : Nat) (pre : List Cluster) (c : Cluster)
    (post : List Cluster) :
    addTrackAt trackId (pre ++ c :: post) pre.length
      = pre ++ { c with tracks := c.tracks ++ [trackId] } :: post := by
  induction pre with
  | nil => rfl
  | cons row rest ih => simp [addTrackAt, ih]

/-- One round of the second loop rewrites the cluster table as follows: a `high_level`
row of the given name gets the track attached, and that row is either a row of the old
table or a new last row. -/
theorem getCluster_addTrack_spec (db : Session) (name : String) (trackId : Nat) :
    ∃ pre c post,
      (Cluster.addTrack (getCluster db "high_level" name).1
          (getCluster db "high_level" name).2 trackId).clusters
        = pre ++ { c with tracks := c.tracks ++ [trackId] } :: post
      ∧ c.type = "high_level" ∧ c.name = name
      ∧ (db.clusters = pre ++ c :: post ∨ (db.clusters = pre ∧ post = [])) := by
  have key : ∀ db1 : Session, db1.clusters = db.clusters →
      ∃ pre c post,
        (Cluster.addTrack
            (match ClusterType.getCluster db1 "high_level" name with
              | some cluster => (db1, cluster)
              | none => Cluster.create db1 "high_level" name).1
            (match ClusterType.getCluster db1 "high_level" name with
              | some cluster => (db1, cluster)
              | none => Cluster.create db1 "high_level" name).2 trackId).clusters
          = pre ++ { c with tracks := c.tracks ++ [trackId] } :: post
        ∧ c.type = "high_level" ∧ c.name = name
        ∧ (db.clusters = pre ++ c :: post ∨ (db.clusters = pre ∧ post = [])) := by
    intro db1 hdb
    cases hf : ClusterType.getCluster db1 "high_level" name with
    | some j =>
      obtain ⟨pre, c, post, h1, h2, h3, h4⟩ := findCluster_some _ _ _ _ _ hf
      refine ⟨pre, c, post, ?_, h3, h4, Or.inl (hdb ▸ h1)⟩
      simp only [Cluster.addTrack, h1, h2, Nat.zero_add]
      exact addTrackAt_append trackId pre c post
    | none =>
      refine ⟨db.clusters, Cluster.mk "high_level" name [], [], ?_, rfl, rfl,
        Or.inr ⟨rfl, rfl⟩⟩
      simp only [Cluster.addTrack, Cluster.create, hdb]
      exact addTrackAt_append trackId db.clusters _ []
  by_cases hmem : "high_level" ∈ db.clusterTypes
  · simp only [getCluster, ClusterType.getByName, hmem, if_true]
    exact key db rfl
  · simp only [getCluster, ClusterType.getByName, hmem, if_false, ClusterType.create]
    exact key _ rfl

/-- One round of the second loop adds the name to the `high_level` names of the track
and leaves its clusters of the other types alone. -/
theorem getCluster_addTrack_names (db : Session) (name : String) (trackId : Nat) :
    (∀ n, n ∈ highLevelNames (Cluster.addTrack (getCluster db "high_level" name).1
          (getCluster db "high_level" name).2 trackId) trackId
        ↔ n = name ∨ n ∈ highLevelNames db trackId)
    ∧ otherClusters (Cluster.addTrack (getCluster db "high_level" name).1
          (getCluster db "high_level" name).2 trackId) trackId
        = otherClusters db trackId := by
  obtain ⟨pre, c, post, h1, h2, h3, h4⟩ := getCluster_addTrack_spec db name trackId
  refine ⟨fun n => ?_, ?_⟩
  · rw [mem_highLevelNames, mem_highLevelNames, h1]
    rcases h4 with h4 | ⟨h4, h5⟩
    · rw [h4]
      simp only [List.mem_append, List.mem_cons]
      constructor
      · rintro ⟨x, hx | hx | hx, ht, hty, hn⟩
        · exact Or.inr ⟨x, Or.inl hx, ht, hty, hn⟩
        · subst hx
          exact Or.inl (by rw [← hn]; exact h3)
        · exact Or.inr ⟨x, Or.inr (Or.inr hx), ht, hty, hn⟩
      · rintro (hn | ⟨x, hx | hx | hx, ht, hty, hn⟩)
        · exact ⟨_, Or.inr (Or.inl rfl), by simp, h2, by rw [hn]; exact h3⟩
        · exact ⟨x, Or.inl hx, ht, hty, hn⟩
        · subst hx
          exact ⟨_, Or.inr (Or.inl rfl), by simp, h2, hn⟩
        · exact ⟨x, Or.inr (Or.inr hx), ht, hty, hn⟩
    · rw [h4, h5]
      simp only [List.mem_append, List.mem_cons, List.mem_singleton, List.not_mem_nil,
        or_false]
      constructor
      · rintro ⟨x, hx | hx, ht, hty, hn⟩
        · exact Or.inr ⟨x, hx, ht, hty, hn⟩
        · subst hx
          exact Or.inl (by rw [← hn]; exact h3)
      · rintro (hn | ⟨x, hx, ht, hty, hn⟩)
        · exact ⟨_, Or.inr rfl, by simp, h2, by rw [hn]; exact h3⟩
        · exact ⟨x, Or.inl hx, ht, hty, hn⟩
  · simp only [otherClusters, Track.getClusters, List.filter_filter, h1]
    rcases h4 with h4 | ⟨h4, h5⟩
    · rw [h4]
      simp [List.filter_append, List.filter_cons, h2]
    · rw [h4, h5]
      simp [List.filter_append, List.filter_cons, h2]

/-- The second loop adds the names that are left to the `high_level` names of the track
and leaves its clusters of the other types alone. -/
theorem addMissing_spec (trackId : Nat) (names : List String) (db : Session) :
    (∀ n, n ∈ highLevelNames (addMissing trackId db names) trackId
        ↔ n ∈ names ∨ n ∈ highLevelNames db trackId)
    ∧ otherClusters (addMissing trackId db names) trackId = otherClusters db trackId := by
  induction names generalizing db with
  | nil => simp [addMissing]
  | cons name rest ih =>
    obtain ⟨h1, h2⟩ := getCluster_addTrack_names db name trackId
    obtain ⟨h3, h4⟩ := ih (Cluster.addTrack (getCluster db "high_level" name).1
      (getCluster db "high_level" name).2 trackId)
    refine ⟨fun n => ?_, ?_⟩
    · simp only [addMissing]
      rw [h3 n, h1 n, List.mem_cons]
      tauto
    · simp only [addMissing]
      rw [h4, h2]

/-- The reconciliation of one track against a list of new names. -/
theorem reconcile_spec (db : Session) (trackId : Nat) (names : List String) :
    (∀ n, n ∈ highLevelNames
          (addMissing trackId
            { db with clusters := (removeStale trackId db.clusters names).1 }
            (removeStale trackId db.clusters names).2) trackId
        ↔ n ∈ names)
    ∧ otherClusters
          (addMissing trackId
            { db with clusters := (removeStale trackId db.clusters names).1 }
            (removeStale trackId db.clusters names).2) trackId
        = otherClusters db trackId := by
  obtain ⟨ha, hb, hc, hd⟩ := removeStale_spec trackId db.clusters names
  obtain ⟨h1, h2⟩ := addMissing_spec trackId (removeStale trackId db.clusters names).2
    { db with clusters := (removeStale trackId db.clusters names).1 }
  refine ⟨fun n => ?_, ?_⟩
  · rw [h1 n, mem_highLevelNames]
    constructor
    · rintro (h | ⟨c, hcm, ht, hty, hn⟩)
      · exact hb n h
      · rw [← hn]
        exact ha c hcm ht hty
    · intro h
      rcases hc n h with h' | ⟨c, hcm, h'⟩
      · exact Or.inl h'
      · exact Or.inr ⟨c, hcm, h'⟩
  · rw [h2]
    simp only [otherClusters, Track.getClusters, List.filter_filter]
    simpa [Bool.and_comm] using hd

/-- C15: for every track that `handleFilesUpdated` processes, right after its processing
step the names of the track's `high_level` clusters are exactly the newly computed
cluster names for that track (none when tag creation is disabled), and the track's
clusters of every other type are unchanged. -/
theorem processTrack_reconciles_clusters (createTags : Bool)
    (features : Nat → Option (List String)) (db : Session) (trackId : Nat)
    (names : List String)
    (hproc : (if createTags then features trackId else some []) = some names) :
    (∀ n, n ∈ highLevelNames (processTrack createTags features db trackId) trackId
        ↔ n ∈ names)
    ∧ otherClusters (processTrack createTags features db trackId) trackId
        = otherClusters db trackId
    ∧ (createTags = false →
        highLevelNames (processTrack createTags features db trackId) trackId = []) := by
  have hstep : processTrack createTags features db trackId
      = addMissing trackId
          { db with clusters := (removeStale trackId db.clusters names).1 }
          (removeStale trackId db.clusters names).2 := by
    simp only [processTrack, hproc]
  obtain ⟨h1, h2⟩ := reconcile_spec db trackId names
  rw [hstep]
  refine ⟨h1, h2, fun hc => ?_⟩
  have hnil : names = [] := by
    rw [hc] at hproc
    simpa using hproc.symm
  apply List.eq_nil_iff_forall_not_mem.2
  intro n hn
  have := (h1 n).1 hn
  rw [hnil] at this
  simp at this

/-- Track 1 of the sample session, whose computed names are `Happy`, `Party` and `Male`:
`Dark` is dropped, `Party` and `Male` are added and the genre cluster stays. -/
theorem processTrack_reconciles_clusters_witness :
    (if true then sampleFeatures 1 else some []) = some ["Happy", "Party", "Male"]
    ∧ (∀ n, n ∈ highLevelNames (processTrack true sampleFeatures sampleSession 1) 1
        ↔ n ∈ ["Happy", "Party", "Male"])
    ∧ otherClusters (processTrack true sampleFeatures sampleSession 1) 1
        = otherClusters sampleSession 1
    ∧ (true = false →
        highLevelNames (processTrack true sampleFeatures sampleSession 1) 1 = []) :=
  ⟨rfl, processTrack_reconciles_clusters true sampleFeatures sampleSession 1
    ["Happy", "Party", "Male"] rfl⟩

end Database
